import Mathlib

/-!
Verification of the yt2radarr job-orchestration core (`src/app.py`).

The Python source is shallowly embedded: pure helpers become Lean functions,
the stateful fragments (job registry, cancel endpoint, the metadata-probe
supervision loop, the fetch-phase line handler) become explicit state passing
plus effect traces, and the filesystem is modelled as a list of existing
names/paths.  External library behaviour (`glob`, `urllib.parse`, JSON
parsing) is modelled by small executable functions or abstracted as function
parameters where only its interface matters.  Python floats are modelled as
exact rationals.
-/

namespace YtToRadarr

/-! ## Python string primitives used by the embedded code -/

/-- Characters treated as whitespace by Python `str.strip()` (ASCII subset). -/
def pyWs (c : Char) : Bool :=
  c = ' ' ∨ c = '\t' ∨ c = '\n' ∨ c = '\r' ∨ c = '\x0b' ∨ c = '\x0c'

/-- Python `str.strip()`. -/
def pyStrip (s : String) : String :=
  ⟨((s.data.dropWhile pyWs).reverse.dropWhile pyWs).reverse⟩

/-- Python `str.rstrip()`. -/
def pyRstrip (s : String) : String :=
  ⟨(s.data.reverse.dropWhile pyWs).reverse⟩

/-- Python `s.startswith(p)`. -/
def startsW (p s : String) : Bool :=
  s.data.take p.data.length = p.data

/-- Python `s.endswith(suf)`. -/
def endsW (suf s : String) : Bool :=
  s.data.drop (s.data.length - suf.data.length) = suf.data

/-- Substring containment, Python `needle in hay` on strings. -/
def containsSub (hay needle : String) : Bool :=
  go needle.data hay.data
where
  go (nd : List Char) : List Char → Bool
    | [] => nd.isEmpty
    | c :: cs => nd.isPrefixOf (c :: cs) || go nd cs

/-- Python `s[:n]` slicing by characters. -/
def pyTake (n : Nat) (s : String) : String :=
  ⟨s.data.take n⟩

/-- Python `str.lower()` (ASCII model). -/
def pyLower (s : String) : String :=
  ⟨s.data.map Char.toLower⟩

/-! ## Job-store / registry effects

One job is in scope throughout, so effects do not carry the job id.
`statusUpdate` carries the progress value passed to `jobs_repo.status`
(`None` when the call omits it); progress is modelled as an exact rational. -/

inductive Effect where
  | appendLog (msg : String)
  | replaceLog (msg : String)
  | statusUpdate (status : String) (progress : Option ℚ)
  | updateJob (field : String)
  | markFailure (msg : String)
  | markSuccess
  | markCancelled
  | terminateProcess
  | cleanupTemp (pat : Option String)
  | removeFile (path : String)
  | createJobRecord
  | startWorker
  deriving DecidableEq, Repr

/-- Number of `appendLog` effects in a trace. -/
def countAppends (effs : List Effect) : Nat :=
  effs.countP fun e => match e with | .appendLog _ => true | _ => false

/-- Number of `replaceLog` effects in a trace. -/
def countReplaces (effs : List Effect) : Nat :=
  effs.countP fun e => match e with | .replaceLog _ => true | _ => false

/-- Number of warning log lines (messages produced by `warn`) in a trace. -/
def countWarnings (effs : List Effect) : Nat :=
  effs.countP fun e =>
    match e with | .appendLog m => startsW "WARNING: " m | _ => false

/-! ## `_cleanup_temp_files` (src/app.py lines 217-227)

`glob` is abstracted as a boolean matcher parameter; the filesystem is the
list of existing file names.  `os.remove` failures leave the file in place,
so the model keeps exactly the files the code does not remove. -/

/-- `_cleanup_temp_files`: remove glob matches ending in `.part` or `.ytdl`;
a falsy (absent or empty) pattern removes nothing. -/
def cleanupTempFiles (globMatch : String → String → Bool)
    (pat : Option String) (fs : List String) : List String :=
  match pat with
  | none => fs
  | some p =>
      if p = "" then fs
      else fs.filter fun f =>
        ¬ (globMatch p f ∧ (endsW ".part" f ∨ endsW ".ytdl" f))

/-! ## Fetch-phase non-zero exit handling (src/app.py lines 2343-2350) -/

/-- Effects emitted by `process_download_job` when the yt-dlp fetch process
exits with `return_code ≠ 0` (and the empty trace otherwise): an exit-code
log line, temp-fragment cleanup, the `ERROR:` log line appended by `fail`,
and the failure mark, in source order. -/
def fetchExitEffects (returnCode : Int) (outputLines : List String)
    (expectedPattern : Option String) : List Effect :=
  if returnCode ≠ 0 then
    let failureSummary := (outputLines.getLast?).getD "Download failed."
    let msg := "Download failed: " ++ pyTake 300 failureSummary
    [ .appendLog ("yt-dlp exited with code " ++ toString returnCode ++ "."),
      .cleanupTemp expectedPattern,
      .appendLog ("ERROR: " ++ msg),
      .markFailure msg ]
  else []

/-! ## Metadata entry selection (src/app.py lines 2035-2066)

A parsed JSON object is modelled by the only field the selection reads
(`_type`, possibly absent or empty) plus an opaque tag standing for the rest
of the dictionary, so distinct entries stay distinguishable. -/

structure InfoEntry where
  typeField : Option String
  rest : Nat
  deriving DecidableEq, Repr

/-- `str(candidate.get("_type") or "video").lower()`. -/
def entryTypeStr (e : InfoEntry) : String :=
  match e.typeField with
  | none => "video"
  | some s => if s = "" then "video" else pyLower s

/-- `entry_type in {"playlist", "multi_video", "multi"}`. -/
def isMultiEntry (e : InfoEntry) : Bool :=
  entryTypeStr e = "playlist" ∨ entryTypeStr e = "multi_video" ∨
    entryTypeStr e = "multi"

/-- The `preferred_entry` computation: walk `reversed(info_entries)` skipping
playlist/multi-item containers, else fall back to the last entry overall. -/
def selectPreferredEntry (entries : List InfoEntry) : Option InfoEntry :=
  match entries.reverse.find? (fun e => ! isMultiEntry e) with
  | some e => some e
  | none => entries.getLast?

/-! ## The cancel endpoint `cancel_job` (src/app.py lines 2628-2666) -/

/-- The registry's `JobControl` runtime handle: the one-shot cancel flag and
the currently attached child process (a numeric handle in the model). -/
structure JobControlM where
  cancelSet : Bool
  process : Option Nat
  deriving DecidableEq, Repr

/-- Result of the cancel endpoint: HTTP status, response message, the
side-effect trace, and the registry entry afterwards. -/
structure CancelOutcome where
  httpStatus : Nat
  message : String
  effects : List Effect
  newControl : Option JobControlM
  deriving DecidableEq, Repr

/-- `cancel_job`: `job` is `none` when the store has no such job, otherwise
`some statusField` (the job's `status` value, `none` when absent).
`control` is the registry entry.  Termination of an attached process happens
unconditionally once the registry entry exists and the job is active;
the log append and store update are guarded by `not already_requested`. -/
def cancelJobRoute (job : Option (Option String)) (control : Option JobControlM) :
    CancelOutcome :=
  match job with
  | none => ⟨404, "Job not found.", [], control⟩
  | some statusField =>
      let status := pyLower (statusField.getD "")
      if ¬ (status = "queued" ∨ status = "processing") then
        ⟨409, "Job is not active and cannot be cancelled.", [], control⟩
      else
        match control with
        | none => ⟨409, "Job worker is no longer active.", [], none⟩
        | some c =>
            let alreadyRequested := c.cancelSet
            let terminateEffs : List Effect :=
              match c.process with
              | some _ => [Effect.terminateProcess]
              | none => []
            let logEffs : List Effect :=
              if ¬ alreadyRequested then
                [Effect.appendLog "Cancellation requested by user.",
                 Effect.updateJob "message"]
              else []
            ⟨202,
             if alreadyRequested then "Cancellation already requested."
             else "Cancellation requested.",
             terminateEffs ++ logEffs,
             some { c with cancelSet := true }⟩

/-! ## The fetch-phase progress regex and line handler
(src/app.py lines 1880, 2250-2299)

`progress_pattern = re.compile(r"(\d{1,3}(?:\.\d+)?)%")` together with
`re.search`: scan positions left to right; at each position take up to three
digits greedily (backtracking to fewer), then greedily an optional fraction,
then require `%`.  The capture group is returned split into its integer and
fraction digits. -/

/-- After the integer digits: optionally `.` followed by one or more digits,
then `%`; returns the fraction digits (`[]` when the optional group is
absent). -/
def percentTail (rest : List Char) : Option (List Char) :=
  match rest with
  | [] => none
  | c :: r2 =>
      if c = '.' then
        let ds := r2.takeWhile Char.isDigit
        if ds = [] then none
        else if (r2.drop ds.length).head? = some '%' then some ds
        else none
      else if c = '%' then some [] else none

/-- Attempt `\d{k}` (`k` digits) at the head of `cs`, then `percentTail`. -/
def percentTryK (cs : List Char) (k : Nat) : Option (List Char × List Char) :=
  if k ≤ (cs.takeWhile Char.isDigit).length then
    match percentTail (cs.drop k) with
    | some frac => some (cs.take k, frac)
    | none => none
  else none

/-- One anchored match attempt of the pattern, greedy in the digit count. -/
def percentAt (cs : List Char) : Option (List Char × List Char) :=
  match percentTryK cs 3 with
  | some r => some r
  | none =>
      match percentTryK cs 2 with
      | some r => some r
      | none => percentTryK cs 1

/-- `re.search`: first position (left to right) where the pattern matches. -/
def searchPercent : List Char → Option (List Char × List Char)
  | [] => none
  | c :: cs =>
      match percentAt (c :: cs) with
      | some r => some r
      | none => searchPercent cs

/-- Decimal value of a digit string. -/
def digitsToNat (ds : List Char) : Nat :=
  ds.foldl (fun a c => a * 10 + (c.toNat - '0'.toNat)) 0

/-- `float(match.group(1))` for a capture split into integer and fraction
digits, as an exact rational. -/
def progressValue (intDs fracDs : List Char) : ℚ :=
  (digitsToNat intDs : ℚ) + (digitsToNat fracDs : ℚ) / ((10 : ℚ) ^ fracDs.length)

/-- The percentage parsed from an output line, if any. -/
def parseProgress (line : String) : Option ℚ :=
  (searchPercent line.data).map fun r => progressValue r.1 r.2

/-- The `debug_prefixes` tuple (src/app.py lines 2253-2259). -/
def debugPrefixList : List String :=
  ["[debug]", "[info]", "[extractor]", "[metadata]", "[youtube]"]

/-- The classification chain of `handle_output_line` after the
progress-download early return: errors, warnings, known informational
markers, debug-level markers, then plain logging. -/
def classifyLine (line : String) : List Effect :=
  let lowered := pyLower line
  if containsSub lowered "error" then [.appendLog ("ERROR: " ++ line)]
  else if containsSub lowered "warning" then [.appendLog ("WARNING: " ++ line)]
  else if startsW "[download]" line ∨ startsW "[ffmpeg]" line then
    [.appendLog line]
  else if debugPrefixList.any (fun p => startsW p lowered) then
    [.appendLog ("DEBUG: " ++ line)]
  else [.appendLog line]

/-- `handle_output_line`: input `active` is the `progress_log_active`
nonlocal; returns the updated flag and the job-store effects of this line. -/
def handleOutputLine (compactProgressLogs : Bool) (active : Bool)
    (text : String) : Bool × List Effect :=
  let line := pyStrip text
  if line = "" then (active, [])
  else
    match searchPercent line.data with
    | some (ids, fds) =>
        let statusEff := Effect.statusUpdate "processing"
          (some (progressValue ids fds))
        if startsW "[download]" line then
          if compactProgressLogs then
            if active then (active, [statusEff, .replaceLog line])
            else (true, [statusEff, .appendLog line])
          else (active, [statusEff, .appendLog line])
        else (active, statusEff :: classifyLine line)
    | none => (active, classifyLine line)

/-- Process a sequence of output lines, threading `progress_log_active` and
concatenating the effect traces. -/
def processLines (compactProgressLogs : Bool) :
    Bool → List String → Bool × List Effect
  | active, [] => (active, [])
  | active, t :: ts =>
      let r := handleOutputLine compactProgressLogs active t
      let rest := processLines compactProgressLogs r.1 ts
      (rest.1, r.2 ++ rest.2)

/-- A download-progress output line: nonblank after stripping, contains a
percentage, and starts with `[download]`. -/
def isProgressDownloadLine (text : String) : Bool :=
  (pyStrip text != "") && (searchPercent (pyStrip text).data).isSome &&
    startsW "[download]" (pyStrip text)

/-! ## Submission-time URL validation and the create endpoint
(src/app.py lines 1024-1063, 1075-1135, 1602-1652)

`urllib.parse.urlparse` is abstracted as a parse function returning the
fields the code reads (scheme, hostname, path), and
`parsed._replace(path=...).geturl()` as a serialisation function. -/

structure ParsedUrl where
  scheme : String
  hostname : Option String
  path : String
  deriving DecidableEq, Repr

/-- A character of the regex class `[a-z0-9+.-]` (case-insensitive). -/
def schemeChar (c : Char) : Bool :=
  c.isAlphanum || c = '+' || c = '.' || c = '-'

/-- `re.match(r"^[a-z][a-z0-9+.-]*://", raw_url, flags=re.IGNORECASE)`. -/
def hasSchemeMarker (raw : String) : Bool :=
  match raw.data with
  | [] => false
  | c :: rest =>
      c.isAlpha && (rest.dropWhile schemeChar).take 3 = [':', '/', '/']

/-- `url_with_scheme`: prepend `https://` when no scheme marker matches. -/
def urlWithScheme (rawUrl : String) : String :=
  if hasSchemeMarker rawUrl then rawUrl else "https://" ++ rawUrl

/-- The `allowed_hosts` set. -/
def allowedHosts : List String :=
  ["youtube.com", "www.youtube.com", "m.youtube.com", "youtu.be",
   "vimeo.com", "www.vimeo.com", "player.vimeo.com",
   "dailymotion.com", "www.dailymotion.com", "dai.ly", "www.dai.ly"]

/-- `_validate_request_urls`: returns the URL put into the payload and the
errors recorded via the `error` callback. -/
def validateRequestUrls (parse : String → Option ParsedUrl)
    (geturl : ParsedUrl → String → String) (yturlField : Option String) :
    String × List String :=
  let rawUrl := pyStrip (yturlField.getD "")
  if rawUrl = "" then (rawUrl, ["Video URL is required."])
  else
    match parse (urlWithScheme rawUrl) with
    | none => (rawUrl, ["Please provide a valid video URL."])
    | some parsed =>
        let hostname := pyLower (parsed.hostname.getD "")
        if ¬ (parsed.scheme = "http" ∨ parsed.scheme = "https") ∨
            hostname ∉ allowedHosts then
          (rawUrl, ["Only YouTube, Vimeo, or Dailymotion URLs are supported."])
        else
          let cleanPath := if parsed.path = "" then "/" else parsed.path
          (geturl parsed cleanPath, [])

/-- `_resolve_playlist_mode`. -/
def resolvePlaylistMode (pmField : Option String) : String × List String :=
  let raw := pmField.getD ""
  let base := if raw = "" then "single" else raw
  let mode := pyLower (pyStrip base)
  if mode = "single" ∨ mode = "merge" then (mode, [])
  else ("single", ["Invalid playlist handling option selected."])

/-- `_resolve_extra_settings`. -/
def resolveExtraSettings (extraField : Bool) (extraNameField : Option String)
    (extraTypeField : Option String) : Bool × String × String × List String :=
  let extraName := pyStrip (extraNameField.getD "")
  let rawType := extraTypeField.getD ""
  let selType := pyLower (pyStrip (if rawType = "" then "trailer" else rawType))
  if extraField ∧ extraName = "" then
    (extraField, extraName, selType,
     ["Extra name is required when storing in a subfolder."])
  else (extraField, extraName, selType, [])

/-- `_validate_movie_selection`. -/
def validateMovieSelection (movieIdField : Option String) :
    String × List String :=
  let movieId := pyStrip (movieIdField.getD "")
  if movieId = "" then
    (movieId,
     ["No movie selected. Please choose a movie from the suggestions list."])
  else (movieId, [])

/-- The fields of the submitted JSON body that `_prepare_create_payload`
reads (`data.get(...)` for a missing field is `None`). -/
structure CreateRequest where
  yturl : Option String
  movieId : Option String
  playlistMode : Option String
  standalone : Bool
  extra : Bool
  extraName : Option String
  extraType : Option String
  deriving Repr

/-- The payload dictionary built by `_prepare_create_payload` (the fields
relevant to validation). -/
structure CreatePayload where
  yturl : String
  movieId : String
  extra : Bool
  extraName : String
  extraType : String
  mergePlaylist : Bool
  playlistMode : String
  standalone : Bool
  deriving Repr

/-- `_prepare_create_payload`: errors are recorded by the shared `error`
callback in call order — playlist mode, extra settings, movie selection,
then URL validation (evaluated while building the returned dictionary). -/
def prepareCreatePayload (parse : String → Option ParsedUrl)
    (geturl : ParsedUrl → String → String) (data : CreateRequest) :
    CreatePayload × List String :=
  let pm := resolvePlaylistMode data.playlistMode
  let es := resolveExtraSettings data.extra data.extraName data.extraType
  let extraRequested := if data.standalone then false else es.1
  let extraName := if data.standalone then "" else es.2.1
  let extraType := if data.standalone then "other" else es.2.2.1
  let mv :=
    if data.standalone then (pyStrip (data.movieId.getD ""), [])
    else validateMovieSelection data.movieId
  let url := validateRequestUrls parse geturl data.yturl
  (⟨url.1, mv.1, extraRequested, extraName, extraType,
    pm.1 = "merge", pm.1, data.standalone⟩,
   pm.2 ++ es.2.2.2 ++ mv.2 ++ url.2)

/-- The `create` route: rejects unconfigured setups with 503 and validation
failures with 400; only otherwise does it create the job record, register
the control and start the worker (HTTP 202). -/
def createEndpoint (configured : Bool) (parse : String → Option ParsedUrl)
    (geturl : ParsedUrl → String → String) (data : CreateRequest) :
    Nat × List Effect :=
  if ¬ configured then (503, [])
  else
    let prep := prepareCreatePayload parse geturl data
    if prep.2 ≠ [] then (400, [])
    else (202, [Effect.createJobRecord, Effect.startWorker])

/-! ## The metadata-probe supervision loop (src/app.py lines 1900-2096)

Each iteration of the `while True` polling loop is modelled by the
observations the code makes during it: the cancel flag, the elapsed
wall-clock time (an exact rational), and the readiness/termination
observations.  Reading/draining stream data has no job-store effect, so
iterations that neither exit nor raise contribute no effects. -/

def METADATA_FETCH_TIMEOUT_SECONDS : Nat := 120

structure ProbeIterObs where
  cancelSet : Bool
  elapsed : ℚ
  selEmptyAfterDrain : Bool
  pollExited : Bool
  waitCompleted : Bool
  pollExited2 : Bool
  selEmptyAfterDrain2 : Bool
  deriving Repr

inductive ProbeExit where
  | cancelled
  | timedOut
  | completed
  | interrupted
  deriving DecidableEq, Repr

/-- The timeout warning appended by `warn(...)` on the timeout branch. -/
def timeoutWarnMsg : String :=
  "WARNING: yt-dlp metadata query exceeded "
    ++ toString METADATA_FETCH_TIMEOUT_SECONDS
    ++ " seconds; continuing without metadata."

/-- The probe `while True` loop (lines 1959-1993): cancel check, timeout
check, drain, joint-completion checks; `interrupted` stands for a trace that
ends while the loop is still running. -/
def probeLoop : List ProbeIterObs → ProbeExit × List Effect
  | [] => (.interrupted, [])
  | o :: rest =>
      if o.cancelSet then
        (.cancelled,
         [.appendLog "Cancellation acknowledged; stopping job.",
          .terminateProcess])
      else if METADATA_FETCH_TIMEOUT_SECONDS ≠ 0 ∧
          (METADATA_FETCH_TIMEOUT_SECONDS : ℚ) ≤ o.elapsed then
        (.timedOut, [.appendLog timeoutWarnMsg, .terminateProcess])
      else if o.selEmptyAfterDrain then
        if o.pollExited then (.completed, [])
        else if o.waitCompleted then (.completed, [])
        else probeLoop rest
      else if o.pollExited2 && o.selEmptyAfterDrain2 then (.completed, [])
      else probeLoop rest

/-- `str(entry.get("_type") or "video")` (not lowercased — used by the debug
candidates line). -/
def entryTypeRaw (e : InfoEntry) : String :=
  match e.typeField with
  | none => "video"
  | some s => if s = "" then "video" else s

/-- Post-loop metadata handling (lines 2029-2084): the exit-status warning
(suppressed after a timeout), JSON-line entries with the whole-output
fallback, entry selection, and the debug/info log lines.  Returns the
effects and the selected `info_payload`.  `blobEntry` is the result of
parsing the entire captured stdout, `none` when stdout was blank or
unparsable; `stderrLines` are the lines of the captured stderr. -/
def metadataPostEffects (timedOut : Bool) (returncode : Option Int)
    (lineEntries : List InfoEntry) (blobEntry : Option InfoEntry)
    (stderrLines : List String) (debugEnabled : Bool) :
    List Effect × Option InfoEntry :=
  let badRc : Bool := match returncode with | none => false | some rc => rc ≠ 0
  if badRc ∧ ¬ timedOut then
    ([.appendLog ("WARNING: yt-dlp metadata query exited with status "
        ++ toString (returncode.getD 0)
        ++ "; continuing without metadata.")], none)
  else
    let entries :=
      if lineEntries = [] then
        match blobEntry with
        | some b => [b]
        | none => []
      else lineEntries
    let payload := selectPreferredEntry entries
    let candEffs : List Effect :=
      if entries ≠ [] ∧ debugEnabled then
        [.appendLog ("DEBUG: yt-dlp metadata candidates: "
            ++ String.intercalate ", " (entries.map entryTypeRaw))]
      else []
    let stderrEffs : List Effect :=
      stderrLines.map fun l => .appendLog ("DEBUG: yt-dlp metadata: " ++ l)
    let okEffs : List Effect :=
      if payload.isSome then
        [.appendLog "YouTube metadata retrieved successfully."]
      else []
    (candEffs ++ stderrEffs ++ okEffs, payload)

/-- The resolved-format summary log line (lines 2086-2096): `rfSummary`
stands for the field formatting of `_resolve_requested_format`, which always
yields a non-empty summary for a selected payload. -/
def resolvedFormatLogEffect (rfSummary : InfoEntry → String)
    (payload : Option InfoEntry) : Effect :=
  match payload with
  | some e => .appendLog ("Resolved YouTube format: " ++ rfSummary e)
  | none =>
      .appendLog "yt-dlp did not report a resolved format; proceeding with download."

inductive PhaseNext where
  | toFetch
  | cancelledExit
  | unknownExit
  deriving DecidableEq, Repr

/-- The whole metadata phase: the supervision loop, the post-loop cancel
check (line 2025), and the metadata/format handling; yields where control
goes next, the selected payload, and the effect trace. -/
def metadataPhase (trace : List ProbeIterObs) (cancelAfter : Bool)
    (returncode : Option Int) (lineEntries : List InfoEntry)
    (blobEntry : Option InfoEntry) (stderrLines : List String)
    (debugEnabled : Bool) (rfSummary : InfoEntry → String) :
    PhaseNext × Option InfoEntry × List Effect :=
  let lp := probeLoop trace
  match lp.1 with
  | .interrupted => (.unknownExit, none, lp.2)
  | .cancelled => (.cancelledExit, none, lp.2)
  | e =>
      if cancelAfter then
        (.cancelledExit, none,
         lp.2 ++ [.appendLog "Cancellation acknowledged; stopping job."])
      else
        let post := metadataPostEffects (e = .timedOut) returncode
          lineEntries blobEntry stderrLines debugEnabled
        (.toFetch, post.2,
         lp.2 ++ post.1 ++ [resolvedFormatLogEffect rfSummary post.2])

/-! ## Filename collision resolution (src/app.py lines 2203-2217, 2542-2564)

The download-stem check globs for `stem.*` (any extension); the final
canonical rename checks `os.path.exists` on one exact filename.  Python's
`glob`/`fnmatch` pattern language is modelled by an executable matcher
(`*`, `?`, `[...]` classes, and glob's hidden-file rule); the directory is
modelled as the list of names it contains.  The matcher uses explicit fuel
(one unit per step; `pattern.length + name.length + 1` always suffices) so
it stays structurally recursive and kernel-evaluable. -/

/-- Scan a character-class body for its closing `]`. -/
def findClose : List Char → Option (List Char × List Char)
  | [] => none
  | c :: rest =>
      if c = ']' then some ([], rest)
      else (findClose rest).map fun p => (c :: p.1, p.2)

/-- `fnmatch` class parsing after `[`: optional `!` negation, a `]` first
character counts as content; an unterminated class makes `[` literal
(`none`). Returns (negated, content, rest of pattern). -/
def parseClass (ps : List Char) : Option (Bool × List Char × List Char) :=
  match ps with
  | '!' :: ']' :: rest2 =>
      (findClose rest2).map fun p => (true, ']' :: p.1, p.2)
  | '!' :: rest =>
      (findClose rest).map fun p => (true, p.1, p.2)
  | ']' :: rest2 =>
      (findClose rest2).map fun p => (false, ']' :: p.1, p.2)
  | ps => (findClose ps).map fun p => (false, p.1, p.2)

/-- Does a class body (with `a-b` ranges) match a character? -/
def classMatch : List Char → Char → Bool
  | [], _ => false
  | a :: '-' :: b :: rest, c =>
      (decide (a ≤ c) && decide (c ≤ b)) || classMatch rest c
  | a :: rest, c => (a = c) || classMatch rest c

/-- The `fnmatch` matcher over characters, with explicit fuel. -/
def globMatchFuel : Nat → List Char → List Char → Bool
  | 0, _, _ => false
  | _ + 1, [], name => name.isEmpty
  | fuel + 1, p :: ps, name =>
      if p = '*' then
        match name with
        | [] => globMatchFuel fuel ps []
        | _ :: ns =>
            globMatchFuel fuel ps name || globMatchFuel fuel (p :: ps) ns
      else if p = '?' then
        match name with
        | [] => false
        | _ :: ns => globMatchFuel fuel ps ns
      else if p = '[' then
        match name with
        | [] => false
        | n :: ns =>
            match parseClass ps with
            | some pc =>
                (if pc.1 then ! classMatch pc.2.1 n else classMatch pc.2.1 n)
                  && globMatchFuel fuel pc.2.2 ns
            | none => (p = n) && globMatchFuel fuel ps ns
      else
        match name with
        | [] => false
        | n :: ns => (p = n) && globMatchFuel fuel ps ns

/-- `fnmatch` on whole strings. -/
def globMatch (pat name : String) : Bool :=
  globMatchFuel (pat.length + name.length + 1) pat.data name.data

/-- Does a string start with `.` (glob's hidden-file test)? -/
def strHeadIsDot (s : String) : Bool :=
  match s.data with
  | c :: _ => c = '.'
  | [] => false

/-- One directory entry against a glob pattern: a hidden name only matches
a pattern that itself starts with `.`. -/
def globEntryMatch (pat name : String) : Bool :=
  if strHeadIsDot name ∧ ¬ strHeadIsDot pat then false
  else globMatch pat name

/-- `any(os.path.exists(path) for path in glob_paths(join(dir, s + ".*")))`
with the directory contents `fs`. -/
def stemPatTaken (fs : List String) (s : String) : Bool :=
  fs.any fun f => globEntryMatch (s ++ ".*") f

/-- The suffixed stem `f"{base} ({n})"`. -/
def suffStem (base : String) (n : Nat) : String :=
  base ++ " (" ++ Nat.repr n ++ ")"

/-- The `while True` suffix search of the download-stem phase, with fuel
standing for the unbounded loop. -/
def searchFreeStem (fs : List String) (base : String) :
    Nat → Nat → Option String
  | _, 0 => none
  | n, fuel + 1 =>
      if stemPatTaken fs (suffStem base n) then
        searchFreeStem fs base (n + 1) fuel
      else some (suffStem base n)

/-- Lines 2203-2217: keep the stem if no file shares it (any extension),
else append `" (n)"` for the first free `n ≥ 1`. -/
def resolveDownloadStem (fs : List String) (stem : String) : Option String :=
  if stemPatTaken fs stem then searchFreeStem fs stem 1 (fs.length + 1)
  else some stem

/-- Index of the last `.` in a character list. -/
def lastDotIdx : List Char → Option Nat
  | [] => none
  | c :: cs =>
      match lastDotIdx cs with
      | some i => some (i + 1)
      | none => if c = '.' then some 0 else none

/-- `os.path.splitext` on a bare filename: split at the last dot unless
every character before it is a dot. -/
def pySplitext (p : String) : String × String :=
  match lastDotIdx p.data with
  | none => (p, "")
  | some i =>
      if (p.data.take i).all (fun c => c = '.') then (p, "")
      else (⟨p.data.take i⟩, ⟨p.data.drop i⟩)

/-- The suffixed filename `f"{base_name} ({n}){ext_part}"`. -/
def suffName (baseName extPart : String) (n : Nat) : String :=
  baseName ++ " (" ++ Nat.repr n ++ ")" ++ extPart

/-- The `while True` search of the canonical-rename phase: exact-filename
existence checks only. -/
def searchFreeExact (fs : List String) (baseName extPart : String) :
    Nat → Nat → Option String
  | _, 0 => none
  | n, fuel + 1 =>
      if suffName baseName extPart n ∈ fs then
        searchFreeExact fs baseName extPart (n + 1) fuel
      else some (suffName baseName extPart n)

/-- Lines 2542-2545: attach the downloaded file's extension to the stem. -/
def canonicalFilenameOf (canonicalStem actualExtension : String) : String :=
  if actualExtension ≠ "" then canonicalStem ++ "." ++ actualExtension
  else canonicalStem

/-- Lines 2546-2564: keep the canonical filename unless that exact name
exists, else append `" (n)"` before the extension for the first free
`n ≥ 1`. -/
def resolveCanonicalFilename (fs : List String) (canonicalFilename : String) :
    Option String :=
  if canonicalFilename ∈ fs then
    searchFreeExact fs (pySplitext canonicalFilename).1
      (pySplitext canonicalFilename).2 1 (fs.length + 1)
  else some canonicalFilename

/-- A stem free of the glob metacharacters `*`, `?`, `[`. -/
def noMeta (s : String) : Bool :=
  s.data.all fun c => ¬ (c = '*' ∨ c = '?' ∨ c = '[')

/-- A file in `fs` shares the stem `s` with some (possibly empty)
extension — the spec's \"any file sharing that stem\" predicate. -/
def sharesStemAny (fs : List String) (s : String) : Prop :=
  ∃ f ∈ fs, ∃ ext, f = s ++ "." ++ ext

/-! ## Library-folder path resolution
(src/app.py lines 489-511, 2692-2719, 2734-2809)

POSIX path helpers (`os.path.normpath`, `dirname`, `basename`, `join`) are
implemented executably; the filesystem is the list of existing directory
paths, threaded through resolution together with the `created` flag
(`os.makedirs` is modelled as succeeding). -/

/-- Index of the last occurrence of a character. -/
def lastIdxOf (t : Char) : List Char → Option Nat
  | [] => none
  | c :: cs =>
      match lastIdxOf t cs with
      | some i => some (i + 1)
      | none => if c = t then some 0 else none

/-- `path.split("/")`. -/
def splitOnSlash (cs : List Char) : List String :=
  go [] cs
where
  go (acc : List Char) : List Char → List String
    | [] => [⟨acc.reverse⟩]
    | c :: rest =>
        if c = '/' then ⟨acc.reverse⟩ :: go [] rest
        else go (c :: acc) rest

/-- The component-stack pass of `posixpath.normpath`. -/
def normComps (initialSlashes : Nat) : List String → List String → List String
  | acc, [] => acc.reverse
  | acc, comp :: rest =>
      if comp = "" ∨ comp = "." then normComps initialSlashes acc rest
      else if comp ≠ ".." ∨ (initialSlashes = 0 ∧ acc = []) ∨
          (match acc with | a :: _ => a = ".." | [] => false : Bool) = true then
        normComps initialSlashes (comp :: acc) rest
      else
        match acc with
        | _ :: accRest => normComps initialSlashes accRest rest
        | [] => normComps initialSlashes acc rest

/-- `os.path.normpath` (POSIX). -/
def posixNormpath (path : String) : String :=
  if path = "" then "."
  else
    let initialSlashes : Nat :=
      if startsW "/" path then
        if startsW "//" path ∧ ¬ startsW "///" path then 2 else 1
      else 0
    let comps := splitOnSlash path.data
    let newComps := normComps initialSlashes [] comps
    let res := (String.mk (List.replicate initialSlashes '/'))
      ++ String.intercalate "/" newComps
    if res = "" then "." else res

/-- `os.path.dirname` (POSIX). -/
def posixDirname (p : String) : String :=
  match lastIdxOf '/' p.data with
  | none => ""
  | some i =>
      let head := p.data.take (i + 1)
      if head.all (fun c => c = '/') then ⟨head⟩
      else ⟨(head.reverse.dropWhile (fun c => c = '/')).reverse⟩

/-- `os.path.basename` (POSIX). -/
def posixBasename (p : String) : String :=
  match lastIdxOf '/' p.data with
  | none => p
  | some i => ⟨p.data.drop (i + 1)⟩

/-- `os.path.join` (POSIX, two arguments). -/
def posixJoin (a b : String) : String :=
  if startsW "/" b then b
  else if a = "" ∨ endsW "/" a then a ++ b
  else a ++ "/" ++ b

/-- `path.rstrip(os.sep)` with `os.sep = "/"`. -/
def rstripSlash (p : String) : String :=
  ⟨(p.data.reverse.dropWhile (fun c => c = '/')).reverse⟩

/-- `path.replace("\\", "/")`. -/
def backslashToSlash (p : String) : String :=
  ⟨p.data.map fun c => if c = '\\' then '/' else c⟩

/-- A configured remote→local path-rewrite rule. -/
structure Override where
  remote : String
  localPath : String
  deriving DecidableEq, Repr

/-- Filesystem state during resolution: the existing directories and
whether a directory was created (`nonlocal created`). -/
structure ResolveCtx where
  dirs : List String
  created : Bool
  deriving DecidableEq, Repr

/-- The `ensure_candidate` closure of `resolve_movie_path`: an existing
directory resolves as-is; otherwise creation is attempted only when allowed
and the base directory exists. -/
def ensureCandidate (createIfMissing : Bool) (ctx : ResolveCtx)
    (candidate : String) (baseDir : Option String) :
    Option String × ResolveCtx :=
  if candidate ∈ ctx.dirs then (some candidate, ctx)
  else if ¬ createIfMissing then (none, ctx)
  else
    let candidateBase :=
      match baseDir with
      | some b => if b = "" then posixDirname candidate else b
      | none => posixDirname candidate
    if candidateBase = "" ∨ candidateBase ∉ ctx.dirs then (none, ctx)
    else (some candidate, ⟨candidate :: ctx.dirs, true⟩)

/-- The remainder of the normalized path after an override's normalized
remote prefix (`some ""` on exact match), or `none` when the rule does not
apply. -/
def overrideRemainder (normalizedOriginal : String) (ov : Override) :
    Option String :=
  let remoteNormalized := backslashToSlash (posixNormpath (pyStrip ov.remote))
  if normalizedOriginal = remoteNormalized then some ""
  else if startsW (remoteNormalized ++ "/") normalizedOriginal then
    some ⟨normalizedOriginal.data.drop (remoteNormalized.length + 1)⟩
  else none

/-- The rewritten candidate for an override rule. -/
def overrideCandidate (ov : Override) (remainder : String) : String :=
  if remainder ≠ "" then
    posixNormpath (posixJoin (pyStrip ov.localPath) remainder)
  else pyStrip ov.localPath

/-- The `base_dir or local` argument passed to `ensure_candidate`. -/
def overrideBaseArg (ov : Override) (remainder : String) : String :=
  if remainder ≠ "" then
    if posixDirname (overrideCandidate ov remainder) = "" then
      pyStrip ov.localPath
    else posixDirname (overrideCandidate ov remainder)
  else pyStrip ov.localPath

/-- `_resolve_override_target`: rules are consulted in configured order and
the first whose rewritten candidate resolves wins. -/
def resolveOverrideTarget (cim : Bool) (normalizedOriginal : String) :
    List Override → ResolveCtx → Option String × ResolveCtx
  | [], ctx => (none, ctx)
  | ov :: rest, ctx =>
      if pyStrip ov.remote = "" ∨ pyStrip ov.localPath = "" then
        resolveOverrideTarget cim normalizedOriginal rest ctx
      else
        match overrideRemainder normalizedOriginal ov with
        | none => resolveOverrideTarget cim normalizedOriginal rest ctx
        | some remainder =>
            let r := ensureCandidate cim ctx (overrideCandidate ov remainder)
              (some (overrideBaseArg ov remainder))
            match r.1 with
            | some res => (some res, r.2)
            | none => resolveOverrideTarget cim normalizedOriginal rest r.2

/-- A rule the loop passes over in state `ctx`: ill-formed (blank remote or
local), non-matching (no prefix match), or matching but with a rewritten
candidate that fails to resolve. -/
def overrideSkipped (cim : Bool) (norm : String) (ctx : ResolveCtx)
    (ov : Override) : Bool :=
  (pyStrip ov.remote = "") || (pyStrip ov.localPath = "") ||
    (match overrideRemainder norm ov with
     | none => true
     | some rem =>
         (ensureCandidate cim ctx (overrideCandidate ov rem)
           (some (overrideBaseArg ov rem))).1 = none)

/-- `_resolve_library_target`: try `join(base, folder_name)` for each
configured library root. -/
def resolveLibraryTarget (cim : Bool) (folderName : String) :
    List String → ResolveCtx → Option String × ResolveCtx
  | [], ctx => (none, ctx)
  | basePath :: rest, ctx =>
      let r := ensureCandidate cim ctx (posixJoin basePath folderName)
        (some basePath)
      match r.1 with
      | some res => (some res, r.2)
      | none => resolveLibraryTarget cim folderName rest r.2

/-- The direct-resolution stage of `resolve_movie_path`. -/
def directStep (cim : Bool) (dirs : List String) (normalizedPath : String) :
    Option String × ResolveCtx :=
  if normalizedPath ∈ dirs then (some normalizedPath, ⟨dirs, false⟩)
  else ensureCandidate cim ⟨dirs, false⟩ normalizedPath
    (some (posixDirname normalizedPath))

/-- `resolve_movie_path`: direct attempt, then the override rules, then the
library-root search by base name; returns the resolved path, the `created`
flag, and the final directory set. -/
def resolveMoviePath (dirs : List String) (originalPath : Option String)
    (pathOverrides : List Override) (filePaths : List String)
    (createIfMissing : Bool) : Option String × Bool × List String :=
  match originalPath with
  | none => (none, false, dirs)
  | some op =>
      if op = "" then (none, false, dirs)
      else
        let normalizedPath := posixNormpath op
        let step1 := directStep createIfMissing dirs normalizedPath
        match step1.1 with
        | some r => (some r, step1.2.created, step1.2.dirs)
        | none =>
            let normalizedOriginal := backslashToSlash normalizedPath
            let step2 := resolveOverrideTarget createIfMissing
              normalizedOriginal pathOverrides step1.2
            match step2.1 with
            | some r => (some r, step2.2.created, step2.2.dirs)
            | none =>
                let folderName := posixBasename (rstripSlash normalizedPath)
                if folderName = "" then (none, step2.2.created, step2.2.dirs)
                else
                  let step3 := resolveLibraryTarget createIfMissing
                    folderName filePaths step2.2
                  (step3.1, step3.2.created, step3.2.dirs)

/-! # Theorems -/

/-- C9: `_cleanup_temp_files` only ever removes files whose names end in
`.part` or `.ytdl`; every other file (whatever the glob pattern matches) is
left in place, and a falsy (absent or empty) pattern removes nothing. -/
theorem cleanupTempFiles_only_fragments (gm : String → String → Bool)
    (pat : Option String) (fs : List String) (f : String) (hf : f ∈ fs)
    (hp : endsW ".part" f = false) (hy : endsW ".ytdl" f = false) :
    f ∈ cleanupTempFiles gm pat fs ∧
    (∀ gm2 fs2, cleanupTempFiles gm2 none fs2 = fs2) ∧
    (∀ gm2 fs2, cleanupTempFiles gm2 (some "") fs2 = fs2) := by
  refine ⟨?_, fun gm2 fs2 => rfl, fun gm2 fs2 => by simp [cleanupTempFiles]⟩
  cases pat with
  | none => exact hf
  | some p =>
      by_cases hpe : p = ""
      · simpa [cleanupTempFiles, hpe] using hf
      · simp only [cleanupTempFiles, hpe, if_false, List.mem_filter]
        refine ⟨hf, by simp [hp, hy]⟩

/-- Witness for C9 at a concrete input. -/
theorem cleanupTempFiles_only_fragments_witness :
    "Alpha.mp4" ∈ cleanupTempFiles (fun _ _ => true) (some "Alpha.*")
        ["Alpha.mp4", "Alpha.mp4.part"] :=
  (cleanupTempFiles_only_fragments (fun _ _ => true) (some "Alpha.*")
    ["Alpha.mp4", "Alpha.mp4.part"] "Alpha.mp4" (by decide) (by decide)
    (by decide)).1

/-- C5: a non-zero fetch exit purges temp fragments and then records job
failure, whose message carries the last captured output line truncated to at
most 300 characters (with the fixed fallback `"Download failed."` when no
output line was captured). -/
theorem fetch_nonzero_exit_fails (rc : Int) (lines : List String)
    (pat : Option String) (h : rc ≠ 0) :
    ∃ msg i j, i < j ∧
      (fetchExitEffects rc lines pat).get? i = some (.cleanupTemp pat) ∧
      (fetchExitEffects rc lines pat).get? j = some (.markFailure msg) ∧
      msg = "Download failed: "
          ++ pyTake 300 ((lines.getLast?).getD "Download failed.") ∧
      (pyTake 300 ((lines.getLast?).getD "Download failed.")).length ≤ 300 := by
  refine ⟨"Download failed: "
      ++ pyTake 300 ((lines.getLast?).getD "Download failed."), 1, 3,
      by norm_num, ?_, ?_, rfl, ?_⟩
  · simp [fetchExitEffects, h]
  · simp [fetchExitEffects, h]
  · show (((lines.getLast?).getD "Download failed.").data.take 300).length ≤ 300
    simp

/-- Witness for C5 at a concrete input. -/
theorem fetch_nonzero_exit_fails_witness :
    ∃ msg i j, i < j ∧
      (fetchExitEffects 1 ["last line"] (some "d/s.*")).get? i
          = some (.cleanupTemp (some "d/s.*")) ∧
      (fetchExitEffects 1 ["last line"] (some "d/s.*")).get? j
          = some (.markFailure msg) ∧
      msg = "Download failed: "
          ++ pyTake 300 ((["last line"].getLast?).getD "Download failed.") ∧
      (pyTake 300 ((["last line"].getLast?).getD "Download failed.")).length
          ≤ 300 :=
  fetch_nonzero_exit_fails 1 ["last line"] (some "d/s.*") (by norm_num)

/-- C3: the selected metadata entry is the last parsed entry whose type is
not a playlist/multi-item container; if every entry is a container the last
entry overall is selected; with no parsed entries nothing is selected. -/
theorem selectPreferredEntry_spec (l1 l2 : List InfoEntry) (e : InfoEntry)
    (he : isMultiEntry e = false)
    (hl2 : ∀ x ∈ l2, isMultiEntry x = true) :
    selectPreferredEntry (l1 ++ e :: l2) = some e ∧
    (∀ entries : List InfoEntry, (∀ x ∈ entries, isMultiEntry x = true) →
        selectPreferredEntry entries = entries.getLast?) ∧
    selectPreferredEntry ([] : List InfoEntry) = none := by
  refine ⟨?_, ?_, rfl⟩
  · have hrev : (l1 ++ e :: l2).reverse = l2.reverse ++ e :: l1.reverse := by
      simp
    have hnone : l2.reverse.find? (fun x => ! isMultiEntry x) = none := by
      rw [List.find?_eq_none]
      intro x hx
      simp [hl2 x (List.mem_reverse.mp hx)]
    simp [selectPreferredEntry, hrev, hnone, he]
  · intro entries hall
    have hnone : entries.reverse.find? (fun x => ! isMultiEntry x) = none := by
      rw [List.find?_eq_none]
      intro x hx
      simp [hall x (List.mem_reverse.mp hx)]
    simp [selectPreferredEntry, hnone]

/-- Witness for C3 at a concrete input: among a container, a plain video and
a trailing container, the plain video is selected. -/
theorem selectPreferredEntry_spec_witness :
    selectPreferredEntry
        [⟨some "playlist", 0⟩, ⟨none, 1⟩, ⟨some "multi_video", 2⟩]
        = some ⟨none, 1⟩ :=
  (selectPreferredEntry_spec [⟨some "playlist", 0⟩] [⟨some "multi_video", 2⟩]
    ⟨none, 1⟩ (by decide) (by decide)).1

/-- C1 counterexample: a second cancel call against an already-cancelled job
with an attached child process reports "already requested" but still sends a
termination signal to the process, so it is not free of further side
effects. -/
theorem cancel_second_call_still_signals :
    (cancelJobRoute (some (some "processing"))
        (some ⟨true, some 0⟩)).message = "Cancellation already requested." ∧
    Effect.terminateProcess ∈
      (cancelJobRoute (some (some "processing"))
        (some ⟨true, some 0⟩)).effects := by
  constructor
  · rfl
  · decide

/-- C1 (amended): a second cancel call on an already-cancelled active job
reports "already requested", appends no log line and updates no job-store
field; its only further side effect is re-sending the termination signal to
the attached child process, and there is none when no process is attached. -/
theorem cancel_already_requested_spec (statusField : Option String)
    (c : JobControlM)
    (hactive : pyLower (statusField.getD "") = "queued" ∨
      pyLower (statusField.getD "") = "processing")
    (hset : c.cancelSet = true) :
    (cancelJobRoute (some statusField) (some c)).message
        = "Cancellation already requested." ∧
    (cancelJobRoute (some statusField) (some c)).httpStatus = 202 ∧
    countAppends (cancelJobRoute (some statusField) (some c)).effects = 0 ∧
    (∀ fld, Effect.updateJob fld ∉
        (cancelJobRoute (some statusField) (some c)).effects) ∧
    (cancelJobRoute (some statusField) (some c)).effects
        = (match c.process with
           | some _ => [Effect.terminateProcess]
           | none => []) ∧
    (c.process = none →
        (cancelJobRoute (some statusField) (some c)).effects = []) ∧
    (cancelJobRoute (some statusField) (some c)).newControl
        = some { c with cancelSet := true } := by
  have hcond : ¬ ¬ (pyLower (statusField.getD "") = "queued" ∨
      pyLower (statusField.getD "") = "processing") := not_not.mpr hactive
  simp only [cancelJobRoute, hcond, if_false, hset]
  cases hp : c.process with
  | none => simp [countAppends]
  | some pid => simp [countAppends]

/-- Witness for C1's amended theorem at a concrete input. -/
theorem cancel_already_requested_spec_witness :
    (cancelJobRoute (some (some "queued")) (some ⟨true, none⟩)).message
        = "Cancellation already requested." ∧
    (cancelJobRoute (some (some "queued")) (some ⟨true, none⟩)).httpStatus
        = 202 ∧
    countAppends
        (cancelJobRoute (some (some "queued")) (some ⟨true, none⟩)).effects
        = 0 ∧
    (∀ fld, Effect.updateJob fld ∉
        (cancelJobRoute (some (some "queued")) (some ⟨true, none⟩)).effects) ∧
    (cancelJobRoute (some (some "queued")) (some ⟨true, none⟩)).effects
        = (match (none : Option Nat) with
           | some _ => [Effect.terminateProcess]
           | none => []) ∧
    ((none : Option Nat) = none →
        (cancelJobRoute (some (some "queued")) (some ⟨true, none⟩)).effects
          = []) ∧
    (cancelJobRoute (some (some "queued")) (some ⟨true, none⟩)).newControl
        = some ⟨true, none⟩ :=
  cancel_already_requested_spec (some "queued") ⟨true, none⟩ (by decide)
    (by decide)

/-! ### Helper lemmas for the progress pattern -/

lemma digitChar_sub_le (c : Char) (h : c.isDigit = true) :
    c.toNat - '0'.toNat ≤ 9 := by
  simp [Char.isDigit] at h
  obtain ⟨h1, h2⟩ := h
  have h3 : c.val.toNat ≤ 57 := UInt32.toNat_le_of_le (by norm_num) h2
  have h4 : '0'.val.toNat = 48 := rfl
  simp only [Char.toNat, h4] at h3 ⊢
  omega

lemma digitsToNat_aux (ds : List Char) (h : ∀ c ∈ ds, c.isDigit = true) :
    ∀ a : Nat,
      ds.foldl (fun a c => a * 10 + (c.toNat - '0'.toNat)) a
        < (a + 1) * 10 ^ ds.length := by
  induction ds with
  | nil =>
      intro a
      simp only [List.foldl_nil, List.length_nil, pow_zero, mul_one]
      omega
  | cons c ds ih =>
      intro a
      have hc : c.toNat - '0'.toNat ≤ 9 :=
        digitChar_sub_le c (h c (List.mem_cons_self c ds))
      have hrest := ih (fun x hx => h x (List.mem_cons_of_mem c hx))
        (a * 10 + (c.toNat - '0'.toNat))
      have hstep : (a * 10 + (c.toNat - '0'.toNat) + 1) * 10 ^ ds.length
          ≤ (a + 1) * 10 ^ (ds.length + 1) := by
        have : a * 10 + (c.toNat - '0'.toNat) + 1 ≤ (a + 1) * 10 := by omega
        calc (a * 10 + (c.toNat - '0'.toNat) + 1) * 10 ^ ds.length
            ≤ (a + 1) * 10 * 10 ^ ds.length := Nat.mul_le_mul_right _ this
          _ = (a + 1) * 10 ^ (ds.length + 1) := by ring
      simp only [List.foldl_cons, List.length_cons]
      exact lt_of_lt_of_le hrest hstep

lemma digitsToNat_lt (ds : List Char) (h : ∀ c ∈ ds, c.isDigit = true) :
    digitsToNat ds < 10 ^ ds.length := by
  simpa [digitsToNat] using digitsToNat_aux ds h 0

lemma mem_take_of_le_takeWhile {p : Char → Bool} {cs : List Char} {k : Nat}
    (hk : k ≤ (cs.takeWhile p).length) :
    ∀ c ∈ cs.take k, p c = true := by
  intro c hc
  have hsplit : cs.take k = (cs.takeWhile p).take k := by
    conv_lhs => rw [← List.takeWhile_append_dropWhile (p := p) (l := cs)]
    rw [List.take_append_eq_append_take, Nat.sub_eq_zero_of_le hk,
      List.take_zero, List.append_nil]
  rw [hsplit] at hc
  exact List.mem_takeWhile_imp (List.take_subset k _ hc)

lemma percentTail_digits {rest : List Char} {fds : List Char}
    (h : percentTail rest = some fds) : ∀ c ∈ fds, c.isDigit = true := by
  match rest with
  | [] => simp [percentTail] at h
  | c :: r2 =>
      simp only [percentTail] at h
      by_cases hc : c = '.'
      · simp only [hc, if_true] at h
        by_cases hds : r2.takeWhile Char.isDigit = []
        · simp [hds] at h
        · simp only [hds, if_false] at h
          split at h
          · cases h
            intro x hx
            exact List.mem_takeWhile_imp hx
          · cases h
      · simp only [hc, if_false] at h
        by_cases hp : c = '%'
        · simp only [hp, if_true] at h
          cases h
          intro x hx
          cases hx
        · simp [hp] at h

lemma percentTryK_spec {cs : List Char} {k : Nat} {ids fds : List Char}
    (h : percentTryK cs k = some (ids, fds)) :
    ids.length = k ∧ (∀ c ∈ ids, c.isDigit = true) ∧
      (∀ c ∈ fds, c.isDigit = true) := by
  simp only [percentTryK] at h
  split at h
  · rename_i hk
    split at h
    · rename_i frac hfrac
      cases h
      have hlen : (cs.take k).length = k := by
        have : k ≤ cs.length :=
          le_trans hk (List.takeWhile_sublist _).length_le
        simp [this]
      exact ⟨hlen, mem_take_of_le_takeWhile hk, percentTail_digits hfrac⟩
    · cases h
  · cases h

lemma percentAt_spec {cs : List Char} {ids fds : List Char}
    (h : percentAt cs = some (ids, fds)) :
    1 ≤ ids.length ∧ ids.length ≤ 3 ∧ (∀ c ∈ ids, c.isDigit = true) ∧
      (∀ c ∈ fds, c.isDigit = true) := by
  simp only [percentAt] at h
  split at h
  · rename_i r h3
    cases h
    obtain ⟨hl, hd, hf⟩ := percentTryK_spec h3
    exact ⟨by omega, by omega, hd, hf⟩
  · split at h
    · rename_i r h2
      cases h
      obtain ⟨hl, hd, hf⟩ := percentTryK_spec h2
      exact ⟨by omega, by omega, hd, hf⟩
    · obtain ⟨hl, hd, hf⟩ := percentTryK_spec h
      exact ⟨by omega, by omega, hd, hf⟩

lemma searchPercent_spec {cs : List Char} {ids fds : List Char}
    (h : searchPercent cs = some (ids, fds)) :
    1 ≤ ids.length ∧ ids.length ≤ 3 ∧ (∀ c ∈ ids, c.isDigit = true) ∧
      (∀ c ∈ fds, c.isDigit = true) := by
  induction cs with
  | nil => simp [searchPercent] at h
  | cons c cs ih =>
      simp only [searchPercent] at h
      split at h
      · rename_i r hat
        cases h
        exact percentAt_spec hat
      · exact ih h

lemma progressValue_bounds {ids fds : List Char} (h1 : 1 ≤ ids.length)
    (h3 : ids.length ≤ 3) (hd : ∀ c ∈ ids, c.isDigit = true)
    (hf : ∀ c ∈ fds, c.isDigit = true) :
    0 ≤ progressValue ids fds ∧ progressValue ids fds < 1000 := by
  have hiv : digitsToNat ids < 1000 := by
    calc digitsToNat ids < 10 ^ ids.length := digitsToNat_lt ids hd
      _ ≤ 10 ^ 3 := Nat.pow_le_pow_right (by norm_num) h3
      _ = 1000 := by norm_num
  have hfv : digitsToNat fds < 10 ^ fds.length := digitsToNat_lt fds hf
  have hivq : (digitsToNat ids : ℚ) ≤ 999 := by
    have : digitsToNat ids ≤ 999 := by omega
    exact_mod_cast this
  have hpow : (0 : ℚ) < (10 : ℚ) ^ fds.length := by positivity
  have hfrac : (digitsToNat fds : ℚ) / (10 : ℚ) ^ fds.length < 1 := by
    rw [div_lt_one hpow]
    exact_mod_cast hfv
  have hfrac0 : (0 : ℚ) ≤ (digitsToNat fds : ℚ) / (10 : ℚ) ^ fds.length :=
    div_nonneg (by positivity) (le_of_lt hpow)
  constructor
  · have : (0 : ℚ) ≤ (digitsToNat ids : ℚ) := by positivity
    simpa [progressValue] using add_nonneg this hfrac0
  · simp only [progressValue]
    linarith

lemma classifyLine_append_only (l : String) :
    ∀ e ∈ classifyLine l, ∃ m, e = Effect.appendLog m := by
  intro e he
  simp only [classifyLine] at he
  split at he
  · simp at he; exact ⟨_, he⟩
  · split at he
    · simp at he; exact ⟨_, he⟩
    · split at he
      · simp at he; exact ⟨_, he⟩
      · split at he
        · simp at he; exact ⟨_, he⟩
        · simp at he; exact ⟨_, he⟩

/-- C7 counterexample: an output line carrying `250.0%` parses to 250 and is
passed to the status update unclamped, outside `[0, 100]`. -/
theorem progress_value_above_hundred :
    parseProgress "[download] 250.0% of file" = some 250 ∧
    (handleOutputLine true false "[download] 250.0% of file").2
        = [Effect.statusUpdate "processing" (some 250),
           Effect.appendLog "[download] 250.0% of file"] ∧
    ¬ ((250 : ℚ) ≤ 100) := by
  have hsearch : searchPercent ("[download] 250.0% of file").data
      = some (['2', '5', '0'], ['0']) := by decide
  have hd1 : digitsToNat ['2', '5', '0'] = 250 := by decide
  have hd2 : digitsToNat ['0'] = 0 := by decide
  have hval : progressValue ['2', '5', '0'] ['0'] = 250 := by
    simp [progressValue, hd1, hd2]
  have hstrip : pyStrip "[download] 250.0% of file"
      = "[download] 250.0% of file" := by decide
  refine ⟨?_, ?_, by norm_num⟩
  · simp [parseProgress, hsearch, hval]
  · simp only [handleOutputLine, hstrip, hsearch]
    rw [if_neg (by decide)]
    rw [if_pos (by decide)]
    simp [hval]

/-- C7 (amended): every progress value passed to the status update by the
fetch-phase line handler is a rational in `[0, 1000)` — the regex caps the
integer part at three digits, but values above 100 pass through
unclamped. -/
theorem progress_update_value_bounded (compact active : Bool)
    (text st : String) (v : ℚ)
    (hmem : Effect.statusUpdate st (some v) ∈
      (handleOutputLine compact active text).2) :
    0 ≤ v ∧ v < 1000 := by
  simp only [handleOutputLine] at hmem
  split at hmem
  · simp at hmem
  · split at hmem
    · rename_i ids fds hsearch
      obtain ⟨hi1, hi3, hd, hf⟩ := searchPercent_spec hsearch
      have hpv := progressValue_bounds hi1 hi3 hd hf
      split at hmem
      · split at hmem
        · split at hmem
          · rcases List.mem_cons.mp hmem with heq | hin
            · injection heq with hA hB
              injection hB with hC
              rw [hC]; exact hpv
            · simp at hin
          · rcases List.mem_cons.mp hmem with heq | hin
            · injection heq with hA hB
              injection hB with hC
              rw [hC]; exact hpv
            · simp at hin
        · rcases List.mem_cons.mp hmem with heq | hin
          · injection heq with hA hB
            injection hB with hC
            rw [hC]; exact hpv
          · simp at hin
      · rcases List.mem_cons.mp hmem with heq | hin
        · injection heq with hA hB
          injection hB with hC
          rw [hC]; exact hpv
        · obtain ⟨m, hm⟩ := classifyLine_append_only _ _ hin
          cases hm
    · obtain ⟨m, hm⟩ := classifyLine_append_only _ _ hmem
      cases hm

/-- Witness for C7's amended theorem at a concrete input. -/
theorem progress_update_value_bounded_witness :
    (0 : ℚ) ≤ 50 ∧ (50 : ℚ) < 1000 := by
  have hsearch : searchPercent ("[download]  50% of x").data
      = some (['5', '0'], []) := by decide
  have hval : progressValue ['5', '0'] [] = 50 := by
    have h50 : digitsToNat ['5', '0'] = 50 := by decide
    simp [progressValue, h50, digitsToNat]
  have hstrip : pyStrip "[download]  50% of x" = "[download]  50% of x" := by
    decide
  have hdl : startsW "[download]" "[download]  50% of x" = true := by decide
  have hmem : Effect.statusUpdate "processing" (some 50) ∈
      (handleOutputLine true false "[download]  50% of x").2 := by
    simp only [handleOutputLine, hstrip, hsearch]
    rw [if_neg (by decide)]
    simp [hdl, hval]
  exact progress_update_value_bounded true false "[download]  50% of x"
    "processing" 50 hmem

/-- C8 counterexample: after a first progress line and an intervening
non-progress `[download]` line, the `progress_log_active` flag is still set,
so the next run of download-progress lines (here of length `N = 1`) issues
zero log appends — not exactly one — and collapses into the preceding
entry via replace-last. -/
theorem progress_run_zero_appends :
    (processLines true false
        ["[download]  10.0% of file",
         "[download] Destination: video.mp4"]).1 = true ∧
    isProgressDownloadLine "[download]  20.0% of file" = true ∧
    countAppends
        (handleOutputLine true true "[download]  20.0% of file").2 = 0 ∧
    countReplaces
        (handleOutputLine true true "[download]  20.0% of file").2 = 1 := by
  refine ⟨by decide, by decide, by decide, by decide⟩

lemma handle_progress_shape (compact active : Bool) (t : String)
    (h : isProgressDownloadLine t = true) :
    ∃ v : ℚ, handleOutputLine compact active t =
      ((if compact then true else active),
       [Effect.statusUpdate "processing" (some v),
        if compact && active then Effect.replaceLog (pyStrip t)
        else Effect.appendLog (pyStrip t)]) := by
  simp only [isProgressDownloadLine, Bool.and_eq_true, bne_iff_ne] at h
  obtain ⟨⟨hne, hsome⟩, hdl⟩ := h
  obtain ⟨⟨ids, fds⟩, hsearch⟩ := Option.isSome_iff_exists.mp hsome
  refine ⟨progressValue ids fds, ?_⟩
  simp only [handleOutputLine, hne, if_false, hsearch, hdl]
  cases compact <;> cases active <;> simp

lemma processLines_compact_aux (ts : List String) :
    ∀ active : Bool, (∀ l ∈ ts, isProgressDownloadLine l = true) →
      countAppends (processLines true active ts).2
          = (if active || ts.isEmpty then 0 else 1) ∧
      countReplaces (processLines true active ts).2
          = ts.length - (if active || ts.isEmpty then 0 else 1) ∧
      (processLines true active ts).1 = (active || !ts.isEmpty) := by
  induction ts with
  | nil =>
      intro active _
      simp [processLines, countAppends, countReplaces]
  | cons t ts ih =>
      intro active hall
      obtain ⟨v, hv⟩ := handle_progress_shape true active t
        (hall t (List.mem_cons_self t ts))
      have ihh := ih true (fun l hl => hall l (List.mem_cons_of_mem t hl))
      have iha : countAppends (processLines true true ts).2 = 0 := by
        simpa using ihh.1
      have ihr : countReplaces (processLines true true ts).2 = ts.length := by
        have := ihh.2.1
        simpa using this
      have ihf : (processLines true true ts).1 = true := by
        simpa using ihh.2.2
      simp only [processLines, hv]
      cases active
      · refine ⟨?_, ?_, ?_⟩
        · simp [countAppends, List.countP_append, List.countP_cons] at iha ⊢
          exact iha
        · simp [countReplaces, List.countP_append, List.countP_cons,
            ihr] at ihr ⊢
          exact ihr
        · simpa using ihf
      · refine ⟨?_, ?_, ?_⟩
        · simp [countAppends, List.countP_append, List.countP_cons] at iha ⊢
          exact iha
        · simp [countReplaces, List.countP_append, List.countP_cons] at ihr ⊢
          exact ihr
        · simpa using ihf

lemma processLines_debug_aux (ts : List String) :
    ∀ active : Bool, (∀ l ∈ ts, isProgressDownloadLine l = true) →
      countAppends (processLines false active ts).2 = ts.length ∧
      countReplaces (processLines false active ts).2 = 0 := by
  induction ts with
  | nil =>
      intro active _
      simp [processLines, countAppends, countReplaces]
  | cons t ts ih =>
      intro active hall
      obtain ⟨v, hv⟩ := handle_progress_shape false active t
        (hall t (List.mem_cons_self t ts))
      obtain ⟨iha, ihr⟩ := ih active
        (fun l hl => hall l (List.mem_cons_of_mem t hl))
      simp only [processLines, hv, Bool.false_and]
      constructor
      · simp [countAppends, List.countP_append, List.countP_cons] at iha ⊢
        exact iha
      · simp [countReplaces, List.countP_append, List.countP_cons] at ihr ⊢
        exact ihr

/-- C8 (amended): with debug logging disabled, only the first run of
download-progress lines in a fetch phase begins with a log append; a run
starting with the `progress_log_active` flag clear issues exactly one
append then replace-last operations, while a run starting with the flag
already set (any later run — the flag is never reset within the phase)
issues zero appends and only replace-last operations.  With debug logging
enabled every line of a run is appended as its own entry. -/
theorem progress_run_logging (runLines : List String) (active : Bool)
    (hne : runLines ≠ [])
    (hall : ∀ l ∈ runLines, isProgressDownloadLine l = true) :
    (countAppends (processLines true active runLines).2
        = if active then 0 else 1) ∧
    (countReplaces (processLines true active runLines).2
        = runLines.length - (if active then 0 else 1)) ∧
    ((processLines true active runLines).1 = true) ∧
    (∀ a2 : Bool,
      countAppends (processLines false a2 runLines).2 = runLines.length ∧
      countReplaces (processLines false a2 runLines).2 = 0) := by
  have hempty : runLines.isEmpty = false := by
    cases runLines with
    | nil => exact absurd rfl hne
    | cons t ts => rfl
  obtain ⟨ha, hr, hf⟩ := processLines_compact_aux runLines active hall
  refine ⟨?_, ?_, ?_, fun a2 => processLines_debug_aux runLines a2 hall⟩
  · rw [ha, hempty]
    cases active <;> simp
  · rw [hr, hempty]
    cases active <;> simp
  · rw [hf, hempty]
    cases active <;> simp

/-- Witness for C8's amended theorem at a concrete input. -/
theorem progress_run_logging_witness :
    (countAppends (processLines true false ["[download]  42.5% of y"]).2
        = if false then 0 else 1) ∧
    (countReplaces (processLines true false ["[download]  42.5% of y"]).2
        = (["[download]  42.5% of y"] : List String).length
            - (if false then 0 else 1)) ∧
    ((processLines true false ["[download]  42.5% of y"]).1 = true) ∧
    (∀ a2 : Bool,
      countAppends (processLines false a2 ["[download]  42.5% of y"]).2
          = (["[download]  42.5% of y"] : List String).length ∧
      countReplaces (processLines false a2 ["[download]  42.5% of y"]).2
          = 0) :=
  progress_run_logging ["[download]  42.5% of y"] false (by decide)
    (by decide)

/-- C10: a job-creation request whose source URL is empty, fails to parse,
or parses with a scheme other than http/https or a hostname outside the
YouTube/Vimeo/Dailymotion allow-list, records a validation error and is
rejected (non-202) before any job record is created or worker started. -/
theorem invalid_url_rejected (configured : Bool)
    (parse : String → Option ParsedUrl)
    (geturl : ParsedUrl → String → String) (data : CreateRequest)
    (hbad : pyStrip (data.yturl.getD "") = "" ∨
      (∀ u, parse (urlWithScheme (pyStrip (data.yturl.getD ""))) = some u →
        ¬ (u.scheme = "http" ∨ u.scheme = "https") ∨
          pyLower (u.hostname.getD "") ∉ allowedHosts)) :
    (validateRequestUrls parse geturl data.yturl).2 ≠ [] ∧
    (createEndpoint configured parse geturl data).1 ≠ 202 ∧
    Effect.createJobRecord ∉ (createEndpoint configured parse geturl data).2 ∧
    Effect.startWorker ∉ (createEndpoint configured parse geturl data).2 := by
  have hval : (validateRequestUrls parse geturl data.yturl).2 ≠ [] := by
    simp only [validateRequestUrls]
    by_cases hraw : pyStrip (data.yturl.getD "") = ""
    · simp [hraw]
    · rcases hbad with h0 | hm
      · exact absurd h0 hraw
      · simp only [hraw, if_false]
        split
        · simp
        · rename_i u hu
          have hbadu := hm u hu
          rw [if_pos (by tauto)]
          simp
  refine ⟨hval, ?_⟩
  simp only [createEndpoint]
  by_cases hc : configured
  · have hprep : (prepareCreatePayload parse geturl data).2 ≠ [] := by
      simp only [prepareCreatePayload]
      intro hnil
      rw [List.append_eq_nil] at hnil
      exact hval hnil.2
    simp [hc, hprep]
  · simp [hc]

/-- Witness for C10 at a concrete input: an `ftp://` URL on an allow-listed
host is rejected. -/
theorem invalid_url_rejected_witness :
    (validateRequestUrls
        (fun s => if s = "ftp://youtube.com/w"
          then some ⟨"ftp", some "youtube.com", "/w"⟩ else none)
        (fun _ p => p)
        (CreateRequest.mk (some "ftp://youtube.com/w") none none false false
          none none).yturl).2 ≠ [] ∧
    (createEndpoint true
        (fun s => if s = "ftp://youtube.com/w"
          then some ⟨"ftp", some "youtube.com", "/w"⟩ else none)
        (fun _ p => p)
        (CreateRequest.mk (some "ftp://youtube.com/w") none none false false
          none none)).1 ≠ 202 ∧
    Effect.createJobRecord ∉ (createEndpoint true
        (fun s => if s = "ftp://youtube.com/w"
          then some ⟨"ftp", some "youtube.com", "/w"⟩ else none)
        (fun _ p => p)
        (CreateRequest.mk (some "ftp://youtube.com/w") none none false false
          none none)).2 ∧
    Effect.startWorker ∉ (createEndpoint true
        (fun s => if s = "ftp://youtube.com/w"
          then some ⟨"ftp", some "youtube.com", "/w"⟩ else none)
        (fun _ p => p)
        (CreateRequest.mk (some "ftp://youtube.com/w") none none false false
          none none)).2 := by
  apply invalid_url_rejected
  right
  intro u hu
  have harg : urlWithScheme
      (pyStrip (((CreateRequest.mk (some "ftp://youtube.com/w") none none
        false false none none).yturl).getD "")) = "ftp://youtube.com/w" := by
    decide
  rw [harg] at hu
  rw [if_pos rfl] at hu
  cases hu
  left
  decide

/-! ### Helper lemmas for the metadata-probe phase -/

lemma startsW_false_of_head_ne {p s : String} {c d : Char}
    {cs ds : List Char} (hp : p.data = c :: cs) (hs : s.data = d :: ds)
    (hne : c ≠ d) : startsW p s = false := by
  have hne2 : ¬ (s.data.take p.data.length = p.data) := by
    rw [hp, hs, List.length_cons, List.take_succ_cons]
    intro h
    injection h with h1 _
    exact hne h1.symm
  simpa [startsW] using hne2

lemma startsW_warning_false (lead x : String) {c : Char} {cs : List Char}
    (hl : lead.data = c :: cs) (hc : c ≠ 'W') :
    startsW "WARNING: " (lead ++ x) = false := by
  refine @startsW_false_of_head_ne "WARNING: " (lead ++ x) 'W' c
    ("ARNING: ".data) (cs ++ x.data) rfl ?_ (fun h => hc h.symm)
  simp [hl]

lemma probeLoop_timedOut_effects (trace : List ProbeIterObs)
    (h : (probeLoop trace).1 = .timedOut) :
    (probeLoop trace).2 = [.appendLog timeoutWarnMsg, .terminateProcess] := by
  induction trace with
  | nil => simp [probeLoop] at h
  | cons o rest ih =>
      by_cases h1 : o.cancelSet = true
      · simp [probeLoop, h1] at h
      · by_cases h2 : (METADATA_FETCH_TIMEOUT_SECONDS ≠ 0 ∧
            (METADATA_FETCH_TIMEOUT_SECONDS : ℚ) ≤ o.elapsed)
        · simp [probeLoop, h1, h2]
        · by_cases h3 : o.selEmptyAfterDrain = true
          · by_cases h4 : o.pollExited = true
            · simp [probeLoop, h1, h2, h3, h4] at h
            · by_cases h5 : o.waitCompleted = true
              · simp [probeLoop, h1, h2, h3, h4, h5] at h
              · simp only [probeLoop, h1, h2, h3, h4, h5] at h ⊢
                simp at h ⊢
                exact ih h
          · by_cases h6 : (o.pollExited2 && o.selEmptyAfterDrain2) = true
            · simp [probeLoop, h1, h2, h3, h6] at h
            · simp only [probeLoop, h1, h2, h3, h6] at h ⊢
              simp at h ⊢
              exact ih h

lemma metadataPostEffects_append_only
    (t : Bool) (rc : Option Int) (les : List InfoEntry)
    (be : Option InfoEntry) (sls : List String) (dbg : Bool) :
    ∀ e ∈ (metadataPostEffects t rc les be sls dbg).1,
      ∃ m, e = Effect.appendLog m := by
  intro e he
  simp only [metadataPostEffects] at he
  split at he
  · simp at he; exact ⟨_, he⟩
  · simp at he
    rcases he with ⟨hc, he⟩ | ⟨l, hl, he⟩ | ⟨hc, he⟩
    · exact ⟨_, he⟩
    · exact ⟨_, he.symm⟩
    · exact ⟨_, he⟩

lemma countWarnings_post_timedOut (rc : Option Int) (les : List InfoEntry)
    (be : Option InfoEntry) (sls : List String) (dbg : Bool) :
    countWarnings (metadataPostEffects true rc les be sls dbg).1 = 0 := by
  rw [countWarnings, List.countP_eq_zero]
  intro e he
  simp only [metadataPostEffects] at he
  split at he
  · rename_i hbad
    simp at hbad
  · simp at he
    rcases he with ⟨hc, he⟩ | ⟨l, hl, he⟩ | ⟨hc, he⟩
    · subst he
      simp only [Bool.not_eq_true]
      exact startsW_warning_false _ _ rfl (by decide)
    · rw [← he]
      simp only [Bool.not_eq_true]
      exact startsW_warning_false _ _ rfl (by decide)
    · subst he
      simp only [Bool.not_eq_true]
      decide

/-- C4: when the metadata probe times out, the probe process is terminated,
exactly one warning is logged across the whole metadata phase, control
proceeds to the fetch phase (never to a failure mark), and when nothing was
parsed from the captured stdout the selected payload — hence the
resolved-format summary — is empty. -/
theorem probe_timeout_soft_failure (trace : List ProbeIterObs)
    (returncode : Option Int) (lineEntries : List InfoEntry)
    (blobEntry : Option InfoEntry) (stderrLines : List String)
    (debugEnabled : Bool) (rfSummary : InfoEntry → String)
    (ht : (probeLoop trace).1 = .timedOut) :
    (metadataPhase trace false returncode lineEntries blobEntry stderrLines
        debugEnabled rfSummary).1 = .toFetch ∧
    Effect.terminateProcess ∈ (metadataPhase trace false returncode
        lineEntries blobEntry stderrLines debugEnabled rfSummary).2.2 ∧
    countWarnings ((metadataPhase trace false returncode lineEntries
        blobEntry stderrLines debugEnabled rfSummary).2.2) = 1 ∧
    (∀ m, Effect.markFailure m ∉ (metadataPhase trace false returncode
        lineEntries blobEntry stderrLines debugEnabled rfSummary).2.2) ∧
    (lineEntries = [] → blobEntry = none →
      (metadataPhase trace false returncode lineEntries blobEntry
        stderrLines debugEnabled rfSummary).2.1 = none) := by
  have heff := probeLoop_timedOut_effects trace ht
  rcases hp : probeLoop trace with ⟨e, effs⟩
  rw [hp] at ht heff
  simp only at ht heff
  subst ht
  subst heff
  have hphase : metadataPhase trace false returncode lineEntries blobEntry
      stderrLines debugEnabled rfSummary
      = (.toFetch,
         (metadataPostEffects true returncode lineEntries blobEntry
            stderrLines debugEnabled).2,
         [Effect.appendLog timeoutWarnMsg, Effect.terminateProcess]
           ++ (metadataPostEffects true returncode lineEntries blobEntry
                stderrLines debugEnabled).1
           ++ [resolvedFormatLogEffect rfSummary
                (metadataPostEffects true returncode lineEntries blobEntry
                  stderrLines debugEnabled).2]) := by
    simp [metadataPhase, hp]
  rw [hphase]
  refine ⟨rfl, ?_, ?_, ?_, ?_⟩
  · simp
  · simp only [countWarnings, List.countP_append]
    have h1 : List.countP
        (fun e => match e with
          | Effect.appendLog m => startsW "WARNING: " m
          | _ => false)
        [Effect.appendLog timeoutWarnMsg, Effect.terminateProcess] = 1 := by
      decide
    have h2 := countWarnings_post_timedOut returncode lineEntries blobEntry
      stderrLines debugEnabled
    rw [countWarnings] at h2
    have h3 : List.countP
        (fun e => match e with
          | Effect.appendLog m => startsW "WARNING: " m
          | _ => false)
        [resolvedFormatLogEffect rfSummary
          (metadataPostEffects true returncode lineEntries blobEntry
            stderrLines debugEnabled).2] = 0 := by
      rw [List.countP_eq_zero]
      intro x hx
      simp only [List.mem_singleton] at hx
      subst hx
      cases hpay : (metadataPostEffects true returncode lineEntries
          blobEntry stderrLines debugEnabled).2 with
      | none =>
          simp only [hpay, resolvedFormatLogEffect, Bool.not_eq_true]
          decide
      | some e2 =>
          simp only [hpay, resolvedFormatLogEffect, Bool.not_eq_true]
          exact startsW_warning_false _ _ rfl (by decide)
    rw [h1, h2, h3]
  · intro m hm
    simp only [List.mem_append] at hm
    rcases hm with (hm | hm) | hm
    · simp at hm
    · obtain ⟨m2, hm2⟩ := metadataPostEffects_append_only _ _ _ _ _ _ _ hm
      cases hm2
    · simp only [List.mem_singleton] at hm
      cases hpay : (metadataPostEffects true returncode lineEntries
          blobEntry stderrLines debugEnabled).2 with
      | none =>
          rw [hpay] at hm
          simp [resolvedFormatLogEffect] at hm
      | some e2 =>
          rw [hpay] at hm
          simp [resolvedFormatLogEffect] at hm
  · intro hle hbe
    subst hle
    subst hbe
    simp [metadataPostEffects, selectPreferredEntry]

/-- Witness for C4 at a concrete input: a trace whose second iteration hits
the timeout boundary. -/
theorem probe_timeout_soft_failure_witness :
    (metadataPhase
        [⟨false, 1, false, false, false, false, false⟩,
         ⟨false, 120, false, false, false, false, false⟩]
        false (some 0) [] none [] false (fun _ => "")).1 = .toFetch ∧
    Effect.terminateProcess ∈ (metadataPhase
        [⟨false, 1, false, false, false, false, false⟩,
         ⟨false, 120, false, false, false, false, false⟩]
        false (some 0) [] none [] false (fun _ => "")).2.2 ∧
    countWarnings ((metadataPhase
        [⟨false, 1, false, false, false, false, false⟩,
         ⟨false, 120, false, false, false, false, false⟩]
        false (some 0) [] none [] false (fun _ => "")).2.2) = 1 ∧
    (∀ m, Effect.markFailure m ∉ (metadataPhase
        [⟨false, 1, false, false, false, false, false⟩,
         ⟨false, 120, false, false, false, false, false⟩]
        false (some 0) [] none [] false (fun _ => "")).2.2) ∧
    (([] : List InfoEntry) = [] → (none : Option InfoEntry) = none →
      (metadataPhase
        [⟨false, 1, false, false, false, false, false⟩,
         ⟨false, 120, false, false, false, false, false⟩]
        false (some 0) [] none [] false (fun _ => "")).2.1 = none) :=
  probe_timeout_soft_failure
    [⟨false, 1, false, false, false, false, false⟩,
     ⟨false, 120, false, false, false, false, false⟩]
    (some 0) [] none [] false (fun _ => "")
    (by norm_num [probeLoop, METADATA_FETCH_TIMEOUT_SECONDS])

/-! ### Helper lemmas for the filename collision rules -/

lemma globMatchFuel_star_all (name : List Char) :
    ∀ fuel, name.length + 2 ≤ fuel → globMatchFuel fuel ['*'] name = true := by
  induction name with
  | nil =>
      intro fuel hf
      obtain ⟨f, rfl⟩ : ∃ f, fuel = f + 1 := ⟨fuel - 1, by omega⟩
      obtain ⟨f2, rfl⟩ : ∃ f2, f = f2 + 1 := ⟨f - 1, by omega⟩
      simp [globMatchFuel]
  | cons n ns ih =>
      intro fuel hf
      obtain ⟨f, rfl⟩ : ∃ f, fuel = f + 1 := ⟨fuel - 1, by omega⟩
      have hb : ns.length + 2 ≤ f := by
        simp only [List.length_cons] at hf
        omega
      simp only [globMatchFuel, if_pos rfl]
      rw [ih f hb]
      simp

lemma globMatchFuel_lit_star (lit : List Char) :
    ∀ (name : List Char) (fuel : Nat),
      (∀ c ∈ lit, ¬ (c = '*' ∨ c = '?' ∨ c = '[')) →
      lit.length + name.length + 2 ≤ fuel →
      (globMatchFuel fuel (lit ++ ['*']) name = true ↔
        ∃ rest, name = lit ++ rest) := by
  induction lit with
  | nil =>
      intro name fuel _ hf
      simp only [List.nil_append]
      rw [globMatchFuel_star_all name fuel (by simpa using by omega)]
      simp
  | cons c lit ih =>
      intro name fuel hm hf
      obtain ⟨f, rfl⟩ : ∃ f, fuel = f + 1 := ⟨fuel - 1, by omega⟩
      have hc := hm c (List.mem_cons_self c lit)
      push_neg at hc
      obtain ⟨hc1, hc2, hc3⟩ := hc
      simp only [List.cons_append, globMatchFuel, if_neg hc1, if_neg hc2,
        if_neg hc3]
      cases name with
      | nil =>
          constructor
          · intro h; cases h
          · rintro ⟨rest, h⟩; cases h
      | cons n ns =>
          rw [Bool.and_eq_true, decide_eq_true_eq]
          have ihh := ih ns f (fun x hx => hm x (List.mem_cons_of_mem c hx))
            (by simp only [List.length_cons] at hf; omega)
          constructor
          · rintro ⟨rfl, hrec⟩
            obtain ⟨rest, rfl⟩ := ihh.mp hrec
            exact ⟨rest, rfl⟩
          · rintro ⟨rest, h⟩
            injection h with h1 h2
            exact ⟨h1.symm, ihh.mpr ⟨rest, h2⟩⟩

lemma globMatch_stem_iff (stem f : String) (hm : noMeta stem = true) :
    globMatch (stem ++ ".*") f = true ↔
      ∃ ext : String, f = stem ++ "." ++ ext := by
  have hdata : (stem ++ ".*").data = (stem.data ++ ['.']) ++ ['*'] := by
    simp [String.data_append]
  have hlit : ∀ c ∈ stem.data ++ ['.'], ¬ (c = '*' ∨ c = '?' ∨ c = '[') := by
    intro c hcm
    rcases List.mem_append.mp hcm with hcm | hcm
    · have := List.all_eq_true.mp hm c hcm
      simpa using this
    · simp only [List.mem_singleton] at hcm
      subst hcm
      decide
  have hlen : (stem.data ++ ['.']).length + f.data.length + 2
      ≤ (stem ++ ".*").length + f.length + 1 := by
    have e1 : (stem ++ ".*").length = stem.data.length + 2 := by
      show (stem ++ ".*").data.length = _
      rw [String.data_append]
      simp
    have e3 : f.length = f.data.length := rfl
    simp only [List.length_append, List.length_singleton, e1, e3]
    omega
  rw [globMatch, hdata,
    globMatchFuel_lit_star (stem.data ++ ['.']) f.data _ hlit hlen]
  constructor
  · rintro ⟨rest, hrest⟩
    refine ⟨⟨rest⟩, String.ext ?_⟩
    simp [String.data_append, hrest]
  · rintro ⟨ext, rfl⟩
    exact ⟨ext.data, by simp [String.data_append]⟩

lemma strHeadIsDot_concat (stem x y : String) (hx : strHeadIsDot x = true)
    (hy : strHeadIsDot y = true) :
    strHeadIsDot (stem ++ x) = strHeadIsDot (stem ++ y) := by
  cases hs : stem.data with
  | nil =>
      have hsx : (stem ++ x).data = x.data := by simp [String.data_append, hs]
      have hsy : (stem ++ y).data = y.data := by simp [String.data_append, hs]
      have ex : strHeadIsDot (stem ++ x) = strHeadIsDot x := by
        unfold strHeadIsDot
        rw [hsx]
      have ey : strHeadIsDot (stem ++ y) = strHeadIsDot y := by
        unfold strHeadIsDot
        rw [hsy]
      rw [ex, ey, hx, hy]
  | cons c cs =>
      have hsx : (stem ++ x).data = c :: (cs ++ x.data) := by
        simp [String.data_append, hs]
      have hsy : (stem ++ y).data = c :: (cs ++ y.data) := by
        simp [String.data_append, hs]
      unfold strHeadIsDot
      rw [hsx, hsy]

lemma globEntryMatch_stem_iff (stem f : String) (hm : noMeta stem = true) :
    globEntryMatch (stem ++ ".*") f = true ↔
      ∃ ext : String, f = stem ++ "." ++ ext := by
  unfold globEntryMatch
  by_cases hnd : strHeadIsDot f = true
  · by_cases hpd : strHeadIsDot (stem ++ ".*") = true
    · rw [if_neg (by simp [hnd, hpd])]
      exact globMatch_stem_iff _ _ hm
    · rw [if_pos (by simp [hnd, hpd])]
      constructor
      · intro h; cases h
      · rintro ⟨ext, rfl⟩
        exfalso
        apply hpd
        have hassoc : stem ++ "." ++ ext = stem ++ ("." ++ ext) := by
          rw [String.append_assoc]
        rw [hassoc] at hnd
        rw [← strHeadIsDot_concat stem ("." ++ ext) ".*" (by rfl) (by rfl)]
        exact hnd
  · rw [if_neg (by simp [hnd])]
    exact globMatch_stem_iff _ _ hm

lemma stemPatTaken_iff (fs : List String) (s : String)
    (hm : noMeta s = true) :
    stemPatTaken fs s = true ↔ sharesStemAny fs s := by
  rw [stemPatTaken, List.any_eq_true]
  constructor
  · rintro ⟨f, hf, hmatch⟩
    exact ⟨f, hf, (globEntryMatch_stem_iff s f hm).mp hmatch⟩
  · rintro ⟨f, hf, ext, hext⟩
    exact ⟨f, hf, (globEntryMatch_stem_iff s f hm).mpr ⟨ext, hext⟩⟩

lemma digitChar_no_meta (m : Nat) (h : m < 10) :
    ¬ (Nat.digitChar m = '*' ∨ Nat.digitChar m = '?' ∨
        Nat.digitChar m = '[') := by
  interval_cases m <;> decide

lemma toDigitsCore_no_meta :
    ∀ (fuel n : Nat) (ds : List Char),
      (∀ c ∈ ds, ¬ (c = '*' ∨ c = '?' ∨ c = '[')) →
      ∀ c ∈ Nat.toDigitsCore 10 fuel n ds,
        ¬ (c = '*' ∨ c = '?' ∨ c = '[') := by
  intro fuel
  induction fuel with
  | zero =>
      intro n ds hds
      simpa [Nat.toDigitsCore] using hds
  | succ f ih =>
      intro n ds hds c hc
      have hdigit : ¬ (Nat.digitChar (n % 10) = '*' ∨
          Nat.digitChar (n % 10) = '?' ∨ Nat.digitChar (n % 10) = '[') :=
        digitChar_no_meta _ (Nat.mod_lt n (by norm_num))
      simp only [Nat.toDigitsCore] at hc
      split at hc
      · rcases List.mem_cons.mp hc with rfl | hc
        · exact hdigit
        · exact hds c hc
      · refine ih (n / 10) (Nat.digitChar (n % 10) :: ds) ?_ c hc
        intro x hx
        rcases List.mem_cons.mp hx with rfl | hx
        · exact hdigit
        · exact hds x hx

lemma repr_no_meta (n : Nat) :
    ∀ c ∈ (Nat.repr n).data, ¬ (c = '*' ∨ c = '?' ∨ c = '[') := by
  intro c hc
  have : (Nat.repr n).data = Nat.toDigits 10 n := rfl
  rw [this, Nat.toDigits] at hc
  exact toDigitsCore_no_meta (n + 1) n [] (by simp) c hc

lemma noMeta_suffStem (base : String) (hm : noMeta base = true) (n : Nat) :
    noMeta (suffStem base n) = true := by
  rw [noMeta, List.all_eq_true]
  intro c hc
  simp only [suffStem, String.data_append] at hc
  rcases List.mem_append.mp hc with hc | hc
  · rcases List.mem_append.mp hc with hc | hc
    · rcases List.mem_append.mp hc with hc | hc
      · have := List.all_eq_true.mp hm c hc
        simpa using this
      · simp only [List.mem_cons] at hc
        rcases hc with rfl | rfl | hc
        · simp
        · simp
        · cases hc
    · simpa using repr_no_meta n c hc
  · simp only [List.mem_singleton] at hc
    subst hc
    simp

lemma searchFreeStem_spec (fs : List String) (base : String) :
    ∀ (fuel n : Nat) (out : String),
      searchFreeStem fs base n fuel = some out →
      ∃ k, n ≤ k ∧ out = suffStem base k ∧
        stemPatTaken fs (suffStem base k) = false ∧
        ∀ m, n ≤ m → m < k → stemPatTaken fs (suffStem base m) = true := by
  intro fuel
  induction fuel with
  | zero => intro n out h; simp [searchFreeStem] at h
  | succ f ih =>
      intro n out h
      simp only [searchFreeStem] at h
      by_cases ht : stemPatTaken fs (suffStem base n) = true
      · rw [if_pos ht] at h
        obtain ⟨k, hk1, hk2, hk3, hk4⟩ := ih (n + 1) out h
        refine ⟨k, by omega, hk2, hk3, fun m hm1 hm2 => ?_⟩
        by_cases hmn : m = n
        · exact hmn ▸ ht
        · exact hk4 m (by omega) hm2
      · rw [if_neg ht] at h
        injection h with h2
        subst h2
        refine ⟨n, le_refl n, rfl, by simpa using ht,
          fun m h1 h2 => absurd (lt_of_le_of_lt h1 h2) (lt_irrefl n)⟩

lemma searchFreeExact_spec (fs : List String) (baseName extPart : String) :
    ∀ (fuel n : Nat) (out : String),
      searchFreeExact fs baseName extPart n fuel = some out →
      ∃ k, n ≤ k ∧ out = suffName baseName extPart k ∧
        suffName baseName extPart k ∉ fs ∧
        ∀ m, n ≤ m → m < k → suffName baseName extPart m ∈ fs := by
  intro fuel
  induction fuel with
  | zero => intro n out h; simp [searchFreeExact] at h
  | succ f ih =>
      intro n out h
      simp only [searchFreeExact] at h
      by_cases ht : suffName baseName extPart n ∈ fs
      · rw [if_pos ht] at h
        obtain ⟨k, hk1, hk2, hk3, hk4⟩ := ih (n + 1) out h
        refine ⟨k, by omega, hk2, hk3, fun m hm1 hm2 => ?_⟩
        by_cases hmn : m = n
        · exact hmn ▸ ht
        · exact hk4 m (by omega) hm2
      · rw [if_neg ht] at h
        injection h with h2
        subst h2
        refine ⟨n, le_refl n, rfl, ht,
          fun m h1 h2 => absurd (lt_of_le_of_lt h1 h2) (lt_irrefl n)⟩

/-- C2 counterexample: with `"Alpha.mkv"` present, the download-stem phase
(any-extension glob) suffixes stem `"Alpha"` to `"Alpha (1)"`, but the final
canonical rename of `"Alpha.mp4"` checks only the exact filename and keeps
the unsuffixed stem even though a file sharing the stem exists. -/
theorem canonical_rename_not_any_extension :
    resolveCanonicalFilename ["Alpha.mkv"] (canonicalFilenameOf "Alpha" "mp4")
        = some "Alpha.mp4" ∧
    ("Alpha.mkv" : String) = "Alpha" ++ "." ++ "mkv" ∧
    resolveDownloadStem ["Alpha.mkv"] "Alpha" = some "Alpha (1)" := by
  refine ⟨by decide, by decide, by decide⟩

/-- C2 (amended): the any-extension stem rule governs the working download
stem (for stems free of glob metacharacters): the stem is kept when no file
shares it with any extension, else `" (n)"` is appended for the smallest
free `n ≥ 1`.  The final canonical rename instead checks only the exact
filename (stem plus the actual extension), appending `" (n)"` before the
extension for the smallest `n ≥ 1` whose exact name does not exist. -/
theorem stem_collision_resolution (fs : List String) (stem : String)
    (hm : noMeta stem = true) :
    (∀ out, resolveDownloadStem fs stem = some out →
      (¬ sharesStemAny fs stem ∧ out = stem) ∨
      (sharesStemAny fs stem ∧ ∃ n, 1 ≤ n ∧ out = suffStem stem n ∧
        ¬ sharesStemAny fs (suffStem stem n) ∧
        ∀ m, 1 ≤ m → m < n → sharesStemAny fs (suffStem stem m))) ∧
    (∀ (fs2 : List String) (fname : String) (out : String),
      resolveCanonicalFilename fs2 fname = some out →
      (fname ∉ fs2 ∧ out = fname) ∨
      (fname ∈ fs2 ∧ ∃ n, 1 ≤ n ∧
        out = suffName (pySplitext fname).1 (pySplitext fname).2 n ∧
        suffName (pySplitext fname).1 (pySplitext fname).2 n ∉ fs2 ∧
        ∀ m, 1 ≤ m → m < n →
          suffName (pySplitext fname).1 (pySplitext fname).2 m ∈ fs2)) := by
  constructor
  · intro out hout
    simp only [resolveDownloadStem] at hout
    by_cases htaken : stemPatTaken fs stem = true
    · rw [if_pos htaken] at hout
      right
      obtain ⟨k, hk1, hk2, hk3, hk4⟩ :=
        searchFreeStem_spec fs stem (fs.length + 1) 1 out hout
      refine ⟨(stemPatTaken_iff fs stem hm).mp htaken, k, hk1, hk2, ?_, ?_⟩
      · intro hshare
        rw [← stemPatTaken_iff fs (suffStem stem k)
          (noMeta_suffStem stem hm k)] at hshare
        rw [hk3] at hshare
        cases hshare
      · intro m h1 h2
        exact (stemPatTaken_iff fs (suffStem stem m)
          (noMeta_suffStem stem hm m)).mp (hk4 m h1 h2)
    · rw [if_neg htaken] at hout
      injection hout with h2
      subst h2
      left
      refine ⟨?_, rfl⟩
      intro hshare
      exact htaken ((stemPatTaken_iff fs stem hm).mpr hshare)
  · intro fs2 fname out hout
    simp only [resolveCanonicalFilename] at hout
    by_cases hmem : fname ∈ fs2
    · rw [if_pos hmem] at hout
      right
      obtain ⟨k, hk1, hk2, hk3, hk4⟩ :=
        searchFreeExact_spec fs2 (pySplitext fname).1 (pySplitext fname).2
          (fs2.length + 1) 1 out hout
      exact ⟨hmem, k, hk1, hk2, hk3, hk4⟩
    · rw [if_neg hmem] at hout
      injection hout with h2
      subst h2
      exact Or.inl ⟨hmem, rfl⟩

/-- Witness for C2's amended theorem at a concrete input. -/
theorem stem_collision_resolution_witness :
    ((¬ sharesStemAny ["Alpha.mkv"] "Alpha" ∧ "Alpha (1)" = "Alpha") ∨
      (sharesStemAny ["Alpha.mkv"] "Alpha" ∧ ∃ n, 1 ≤ n ∧
        "Alpha (1)" = suffStem "Alpha" n ∧
        ¬ sharesStemAny ["Alpha.mkv"] (suffStem "Alpha" n) ∧
        ∀ m, 1 ≤ m → m < n →
          sharesStemAny ["Alpha.mkv"] (suffStem "Alpha" m))) ∧
    ((("Alpha.mp4" : String) ∉ (["Alpha.mkv"] : List String) ∧
        "Alpha.mp4" = "Alpha.mp4") ∨
      ("Alpha.mp4" ∈ (["Alpha.mkv"] : List String) ∧ ∃ n, 1 ≤ n ∧
        ("Alpha.mp4" : String)
            = suffName (pySplitext "Alpha.mp4").1 (pySplitext "Alpha.mp4").2 n ∧
        suffName (pySplitext "Alpha.mp4").1 (pySplitext "Alpha.mp4").2 n
            ∉ (["Alpha.mkv"] : List String) ∧
        ∀ m, 1 ≤ m → m < n →
          suffName (pySplitext "Alpha.mp4").1 (pySplitext "Alpha.mp4").2 m
            ∈ (["Alpha.mkv"] : List String))) := by
  have h := stem_collision_resolution ["Alpha.mkv"] "Alpha" (by decide)
  exact ⟨h.1 "Alpha (1)" (by decide),
    h.2 ["Alpha.mkv"] "Alpha.mp4" "Alpha.mp4" (by decide)⟩

/-! ### Helper lemmas for path resolution -/

lemma ensureCandidate_none_ctx (cim : Bool) (ctx : ResolveCtx)
    (c : String) (b : Option String)
    (h : (ensureCandidate cim ctx c b).1 = none) :
    (ensureCandidate cim ctx c b).2 = ctx := by
  simp only [ensureCandidate] at h ⊢
  split_ifs at h ⊢ <;> simp_all

lemma directStep_none_ctx (cim : Bool) (dirs : List String) (np : String)
    (h : (directStep cim dirs np).1 = none) :
    (directStep cim dirs np).2 = ⟨dirs, false⟩ := by
  simp only [directStep] at h ⊢
  split at h
  · simp at h
  · split
    · simp_all
    · exact ensureCandidate_none_ctx _ _ _ _ h

/-- C6 counterexample: with two configured rules whose remote prefixes both
match (`/a` first, the longer `/a/b` second) and both rewritten candidates
existing, the resolver returns the first rule's candidate `/x/b/c`, not the
longest-prefix rule's `/y/c`. -/
theorem override_first_match_not_longest :
    resolveMoviePath ["/x/b/c", "/y/c"] (some "/a/b/c")
        [⟨"/a", "/x"⟩, ⟨"/a/b", "/y"⟩] [] true
      = (some "/x/b/c", false, ["/x/b/c", "/y/c"]) ∧
    overrideRemainder "/a/b/c" ⟨"/a/b", "/y"⟩ = some "c" ∧
    overrideRemainder "/a/b/c" ⟨"/a", "/x"⟩ = some "b/c" ∧
    (pyStrip ("/a/b" : String)).length > (pyStrip ("/a" : String)).length ∧
    (ensureCandidate true ⟨["/x/b/c", "/y/c"], false⟩
        (overrideCandidate ⟨"/a/b", "/y"⟩ "c")
        (some (overrideBaseArg ⟨"/a/b", "/y"⟩ "c"))).1 = some "/y/c" ∧
    ("/x/b/c" : String) ≠ "/y/c" := by
  refine ⟨by decide, by decide, by decide, by decide, by decide, by decide⟩

lemma resolveOverrideTarget_skip (cim : Bool) (norm : String) (ov : Override)
    (rest : List Override) (ctx : ResolveCtx)
    (h : overrideSkipped cim norm ctx ov = true) :
    resolveOverrideTarget cim norm (ov :: rest) ctx
      = resolveOverrideTarget cim norm rest ctx := by
  simp only [resolveOverrideTarget]
  by_cases hwf : pyStrip ov.remote = "" ∨ pyStrip ov.localPath = ""
  · rw [if_pos hwf]
  · rw [if_neg hwf]
    cases hrem : overrideRemainder norm ov with
    | none => rfl
    | some rem =>
        simp only [overrideSkipped, Bool.or_eq_true, decide_eq_true_eq,
          hrem] at h
        push_neg at hwf
        have h3 : (ensureCandidate cim ctx (overrideCandidate ov rem)
            (some (overrideBaseArg ov rem))).1 = none := by
          rcases h with (h1 | h2) | h3
          · exact absurd h1 hwf.1
          · exact absurd h2 hwf.2
          · exact h3
        have hctx := ensureCandidate_none_ctx cim ctx
          (overrideCandidate ov rem) (some (overrideBaseArg ov rem)) h3
        simp only [h3, hctx]

lemma resolveOverrideTarget_first (cim : Bool) (norm : String) :
    ∀ (pre : List Override) (ov : Override) (rest : List Override)
      (rem res : String) (ctx ctx2 : ResolveCtx),
      (∀ o ∈ pre, overrideSkipped cim norm ctx o = true) →
      pyStrip ov.remote ≠ "" → pyStrip ov.localPath ≠ "" →
      overrideRemainder norm ov = some rem →
      ensureCandidate cim ctx (overrideCandidate ov rem)
          (some (overrideBaseArg ov rem)) = (some res, ctx2) →
      resolveOverrideTarget cim norm (pre ++ ov :: rest) ctx
        = (some res, ctx2) := by
  intro pre
  induction pre with
  | nil =>
      intro ov rest rem res ctx ctx2 _ hwr hwl hrem hres
      simp only [List.nil_append, resolveOverrideTarget]
      rw [if_neg (by simp [hwr, hwl])]
      rw [hrem]
      simp only [hres]
  | cons o pre ih =>
      intro ov rest rem res ctx ctx2 hpre hwr hwl hrem hres
      rw [List.cons_append,
        resolveOverrideTarget_skip cim norm o (pre ++ ov :: rest) ctx
          (hpre o (List.mem_cons_self o pre))]
      exact ih ov rest rem res ctx ctx2
        (fun x hx => hpre x (List.mem_cons_of_mem o hx)) hwr hwl hrem hres

/-- C6 (amended): when the known folder path neither resolves directly nor
can be created, the rewrite rules are consulted in configured order and the
first wellformed rule whose remote prefix matches and whose rewritten
candidate resolves wins — every earlier rule being ill-formed, non-matching
or non-resolving, and regardless of any later rule with a longer matching
prefix; only when every rule fails does resolution fall back to searching
each library root for the folder's base name. -/
theorem resolveMoviePath_spec (dirs : List String) (op : String)
    (filePaths : List String) (cim : Bool)
    (hop : op ≠ "")
    (hstep1 : (directStep cim dirs (posixNormpath op)).1 = none) :
    (∀ (pre : List Override) (ov : Override) (rest : List Override)
        (rem res : String) (ctx2 : ResolveCtx),
      (∀ o ∈ pre, overrideSkipped cim (backslashToSlash (posixNormpath op))
          ⟨dirs, false⟩ o = true) →
      pyStrip ov.remote ≠ "" → pyStrip ov.localPath ≠ "" →
      overrideRemainder (backslashToSlash (posixNormpath op)) ov = some rem →
      ensureCandidate cim ⟨dirs, false⟩ (overrideCandidate ov rem)
          (some (overrideBaseArg ov rem)) = (some res, ctx2) →
      resolveMoviePath dirs (some op) (pre ++ ov :: rest) filePaths cim
        = (some res, ctx2.created, ctx2.dirs)) ∧
    (∀ (overrides : List Override) (ctx3 : ResolveCtx),
      resolveOverrideTarget cim (backslashToSlash (posixNormpath op))
          overrides ⟨dirs, false⟩ = (none, ctx3) →
      posixBasename (rstripSlash (posixNormpath op)) ≠ "" →
      resolveMoviePath dirs (some op) overrides filePaths cim
        = ((resolveLibraryTarget cim
              (posixBasename (rstripSlash (posixNormpath op)))
              filePaths ctx3).1,
           (resolveLibraryTarget cim
              (posixBasename (rstripSlash (posixNormpath op)))
              filePaths ctx3).2.created,
           (resolveLibraryTarget cim
              (posixBasename (rstripSlash (posixNormpath op)))
              filePaths ctx3).2.dirs)) := by
  have hctx1 := directStep_none_ctx cim dirs (posixNormpath op) hstep1
  constructor
  · intro pre ov rest rem res ctx2 hpre hwr hwl hrem hres
    have hov : resolveOverrideTarget cim (backslashToSlash (posixNormpath op))
        (pre ++ ov :: rest) ⟨dirs, false⟩ = (some res, ctx2) :=
      resolveOverrideTarget_first cim (backslashToSlash (posixNormpath op))
        pre ov rest rem res ⟨dirs, false⟩ ctx2 hpre hwr hwl hrem hres
    simp only [resolveMoviePath]
    rw [if_neg hop]
    simp only [hstep1, hctx1, hov]
  · intro overrides ctx3 hover hfn
    simp only [resolveMoviePath]
    rw [if_neg hop]
    simp only [hstep1, hctx1, hover]
    rw [if_neg hfn]

/-- Witness for C6's amended theorem at a concrete input: an ill-formed
rule and a non-matching rule are skipped, the third rule wins, and the
later longer-prefix rule is never consulted. -/
theorem resolveMoviePath_spec_witness :
    resolveMoviePath ["/x/b/c"] (some "/a/b/c")
        [⟨"", "/z"⟩, ⟨"/q", "/w"⟩, ⟨"/a", "/x"⟩, ⟨"/a/b", "/y"⟩] [] true
      = (some "/x/b/c", false, ["/x/b/c"]) :=
  (resolveMoviePath_spec ["/x/b/c"] "/a/b/c" [] true (by decide)
      (by decide)).1
    [⟨"", "/z"⟩, ⟨"/q", "/w"⟩] ⟨"/a", "/x"⟩ [⟨"/a/b", "/y"⟩] "b/c"
    "/x/b/c" ⟨["/x/b/c"], false⟩
    (by decide) (by decide) (by decide) (by decide) (by decide)

end YtToRadarr
